import Mathlib

/-!
Verification of the MCP DuckDB streaming server (TypeScript sources
`src/tools/dbQueryTool.ts`, `src/database/db.ts`, `src/server.ts`) against its
natural-language specification.

The embedding is shallow: JavaScript strings are Lean `String`s and their
relevant `String.prototype` methods (`trim`, `toLowerCase`, `startsWith`,
`includes`) are modelled on the underlying character lists, restricted to the
ASCII fragment the repository uses.  The async generator
`executeStreamingTool` is modelled as a pure function from its input and the
behaviour of the injected row source to the finite list of events it yields;
a row source is a function from the executed SQL text to the list of row
chunks it delivers followed by an optional error raised afterwards (the
semantics of iterating an async generator that may throw mid-stream).
Timestamps and wall-clock execution times carried by some events are
nondeterministic real-time data and are omitted from the event model; every
other field is kept.
-/

namespace McpDuckdb

/-- Whitespace test used by the model of `String.prototype.trim` (the ASCII
whitespace characters that occur in the data of this repository). -/
def isJsWs (c : Char) : Bool := c == ' ' || c == '\t' || c == '\n' || c == '\r'

/-- ASCII model of `String.prototype.toLowerCase` on a single character. -/
def lowerChar : Char → Char
  | 'A' => 'a' | 'B' => 'b' | 'C' => 'c' | 'D' => 'd' | 'E' => 'e' | 'F' => 'f'
  | 'G' => 'g' | 'H' => 'h' | 'I' => 'i' | 'J' => 'j' | 'K' => 'k' | 'L' => 'l'
  | 'M' => 'm' | 'N' => 'n' | 'O' => 'o' | 'P' => 'p' | 'Q' => 'q' | 'R' => 'r'
  | 'S' => 's' | 'T' => 't' | 'U' => 'u' | 'V' => 'v' | 'W' => 'w' | 'X' => 'x'
  | 'Y' => 'y' | 'Z' => 'z'
  | c => c

/-- Model of `String.prototype.toLowerCase` (ASCII fragment). -/
def jsToLower (s : String) : String := ⟨s.data.map lowerChar⟩

/-- Trimming on character lists: drop whitespace from both ends. -/
def trimChars (l : List Char) : List Char :=
  ((l.dropWhile isJsWs).reverse.dropWhile isJsWs).reverse

/-- Model of `String.prototype.trim`. -/
def jsTrim (s : String) : String := ⟨trimChars s.data⟩

/-- Model of `String.prototype.startsWith`. -/
def jsStartsWith (s pat : String) : Bool := decide (pat.data <+: s.data)

/-- Model of `String.prototype.includes` (substring containment). -/
def jsIncludes (s sub : String) : Bool := decide (sub.data <:+: s.data)

/-- The keyword denylist of `DatabaseManager.validateQuery` (db.ts line 200). -/
def dangerousKeywords : List String :=
  ["drop", "delete", "update", "insert", "alter", "create", "truncate"]

/-- `DatabaseManager.validateQuery` (db.ts lines 191 to 208): lowercase and trim
the query, require it to start with "select", and reject it when any denylisted
keyword occurs as a substring. -/
def validateQuery (sql : String) : Bool :=
  let sanitizedSql := jsTrim (jsToLower sql)
  if !(jsStartsWith sanitizedSql "select") then false
  else if dangerousKeywords.any (fun kw => jsIncludes sanitizedSql kw) then false
  else true

/-- Decimal digit character for a value below ten. -/
def digitChar : Nat → Char
  | 0 => '0' | 1 => '1' | 2 => '2' | 3 => '3' | 4 => '4'
  | 5 => '5' | 6 => '6' | 7 => '7' | 8 => '8' | _ => '9'

/-- Decimal digit list of a natural number, computed with a structural fuel
argument (any fuel of at least the digit count gives the digits). -/
def natDigitsAux : Nat → Nat → List Char
  | 0, _ => []
  | fuel + 1, n =>
    if n < 10 then [digitChar n]
    else natDigitsAux fuel (n / 10) ++ [digitChar (n % 10)]

/-- Decimal digit list of a natural number (model of JS number-to-string
interpolation for nonnegative integers). -/
def natDigits (n : Nat) : List Char := natDigitsAux (n + 1) n

/-- Model of JS template interpolation of an integer value. -/
def intToString (n : Int) : String :=
  if n < 0 then ⟨'-' :: natDigits (-n).toNat⟩ else ⟨natDigits n.toNat⟩

/-- The tool input `{ sql, limit? }` (types/index.ts `DbQueryToolInput`). -/
structure DbQueryToolInput where
  sql : String
  limit : Option Int

/-- The limit-application logic shared by `streamExecute`, `execute` and
`executeStreamingTool` (dbQueryTool.ts lines 66 to 73, 120 to 127 and 172 to
179): trim the query, and when a positive limit was supplied and the lowercased
text does not already contain "limit", append a LIMIT clause. -/
def applyLimit (sqlRaw : String) (limit : Option Int) : String :=
  let sql := jsTrim sqlRaw
  match limit with
  | none => sql
  | some l =>
    if 0 < l then
      if jsIncludes (jsToLower sql) "limit" then sql
      else sql ++ " LIMIT " ++ intToString l
    else sql

/-- The events yielded by `executeStreamingTool` (dbQueryTool.ts lines 189,
220, 243, 262 and 274), with the nondeterministic timestamp and elapsed-time
fields omitted. -/
inductive Event (Row : Type) where
  | query_start (query : String) (columns : List String)
  | data_chunk (chunk : List Row) (chunkNumber rowsInChunk totalRowsSoFar : Nat)
  | query_complete (totalRows totalChunks : Nat)
  | query_error (message : String)
deriving DecidableEq

/-- The mutable state of the chunk-sequencing loop in `executeStreamingTool`
(dbQueryTool.ts lines 205 to 207), together with the data chunk events yielded
so far. -/
structure StreamState (Row : Type) where
  currentStreamChunk : List Row
  totalRows : Nat
  chunkNumber : Nat
  events : List (Event Row)
deriving DecidableEq

/-- dbQueryTool.ts line 203: the stream chunk size constant. -/
def streamChunkSize : Nat := 5

/-- dbQueryTool.ts line 204: the database-side chunk size constant. -/
def dbChunkSize : Nat := 50

/-- The body of the row loop in `executeStreamingTool` (dbQueryTool.ts lines
212 to 236): push the row into the buffer, count it, and when the buffer has
reached the chunk size emit it as a `data_chunk` event and clear it. -/
def pushRow {Row : Type} (chunkSize : Nat) (st : StreamState Row) (row : Row) :
    StreamState Row :=
  let buf := st.currentStreamChunk ++ [row]
  let tot := st.totalRows + 1
  if chunkSize ≤ buf.length then
    { currentStreamChunk := [], totalRows := tot, chunkNumber := st.chunkNumber + 1,
      events := st.events ++ [Event.data_chunk buf (st.chunkNumber + 1) buf.length tot] }
  else
    { currentStreamChunk := buf, totalRows := tot, chunkNumber := st.chunkNumber,
      events := st.events }

/-- The row loop of `executeStreamingTool` over a sequence of rows. -/
def runRows {Row : Type} (chunkSize : Nat) (st : StreamState Row) (rows : List Row) :
    StreamState Row :=
  rows.foldl (pushRow chunkSize) st

/-- Initial loop state (empty buffer, zero counters, no events yet). -/
def initialStreamState (Row : Type) : StreamState Row := ⟨[], 0, 0, []⟩

/-- The final-chunk flush of `executeStreamingTool` (dbQueryTool.ts lines 240
to 256): emit the remaining buffered rows, if any, as a final shorter chunk. -/
def flushChunk {Row : Type} (st : StreamState Row) : StreamState Row :=
  if 0 < st.currentStreamChunk.length then
    { currentStreamChunk := [], totalRows := st.totalRows, chunkNumber := st.chunkNumber + 1,
      events := st.events ++ [Event.data_chunk st.currentStreamChunk (st.chunkNumber + 1)
        st.currentStreamChunk.length st.totalRows] }
  else st

/-- Error message thrown for a missing or empty sql input. -/
def sqlRequiredMessage : String := "SQL query is required and must be a string"

/-- Error message thrown when `validateQuery` rejects the query. -/
def invalidQueryMessage : String :=
  "Invalid SQL query. Only SELECT statements are allowed. Dangerous keywords (DROP, DELETE, UPDATE, INSERT, etc.) are not permitted."

/-- `DbQueryTool.executeStreamingTool` (dbQueryTool.ts lines 160 to 283) as a
function of the input and of the behaviour of the injected row source.
`runQuery sql` returns the list of row chunks the async generator of the source
yields for the executed text `sql`, paired with `some message` when the source
raises that error after those chunks (skipping the final flush, caught by the
surrounding try/catch which yields one `query_error`) and `none` when it ends
normally.  The nested loop over database chunks and their rows processes rows
one at a time, so it is folded over the flattened row list.  The `columns`
argument is the result of a successful schema probe: this function is the
continuation of `executeStreamingToolProbed` (below) after the probe call at
line 182 has returned, and the case where that call throws is modelled
there. -/
def executeStreamingToolGen {Row : Type} (input : DbQueryToolInput) (columns : List String)
    (runQuery : String → List (List Row) × Option String) : List (Event Row) :=
  if input.sql = "" then [Event.query_error sqlRequiredMessage]
  else if validateQuery input.sql = false then [Event.query_error invalidQueryMessage]
  else
    let sql := applyLimit input.sql input.limit
    let src := runQuery sql
    let st := runRows streamChunkSize (initialStreamState Row) src.1.flatten
    Event.query_start sql columns ::
      match src.2 with
      | some msg => st.events ++ [Event.query_error msg]
      | none =>
        let stF := flushChunk st
        stF.events ++ [Event.query_complete stF.totalRows stF.chunkNumber]

/-- `DbQueryTool.executeStreamingTool` with the schema probe modelled as
fallible.  The call `executeQuery('SELECT * FROM employees LIMIT 0')` at
dbQueryTool.ts line 182 runs inside the try block after validation but
before the `query_start` yield; `executeQuery` (db.ts lines 105 to 132) can
throw (uninitialized database, store failure), and then the catch yields a
single `query_error` carrying that message, with no `query_start`.  When the
probe returns, its column list feeds `query_start` and the run continues as
`executeStreamingToolGen`. -/
def executeStreamingToolProbed {Row : Type} (input : DbQueryToolInput)
    (schemaProbe : Except String (List String))
    (runQuery : String → List (List Row) × Option String) : List (Event Row) :=
  if input.sql = "" then [Event.query_error sqlRequiredMessage]
  else if validateQuery input.sql = false then [Event.query_error invalidQueryMessage]
  else
    match schemaProbe with
    | Except.error e => [Event.query_error e]
    | Except.ok columns => executeStreamingToolGen input columns runQuery

/-- Structural-fuel worker for `chunksOf` (any fuel of at least the list
length computes all chunks). -/
def chunksOfAux {Row : Type} (chunkSize : Nat) : Nat → List Row → List (List Row)
  | 0, _ => []
  | _, [] => []
  | fuel + 1, r :: rs =>
    (r :: rs.take (chunkSize - 1)) :: chunksOfAux chunkSize fuel (rs.drop (chunkSize - 1))

/-- Slicing a row list into chunks of `chunkSize` rows, as
`DatabaseManager.executeStreamingQuery` does (db.ts lines 150 to 153).  For
`chunkSize = 0` this behaves as chunk size one; all uses have a positive size. -/
def chunksOf {Row : Type} (chunkSize : Nat) (l : List Row) : List (List Row) :=
  chunksOfAux chunkSize l.length l

/-- The backing store as `DatabaseManager` exposes it: a column list (schema
probe) and, per executed SQL text, either the full materialized row list
(`runAndReadAll`) or an error. -/
structure DbModel (Row : Type) where
  columns : List String
  result : String → Except String (List Row)

/-- `DatabaseManager.executeStreamingQuery` (db.ts lines 137 to 157) as a row
source: on success it yields the materialized rows sliced into chunks and ends
normally; on failure it raises before yielding anything. -/
def executeStreamingQueryModel {Row : Type} (db : DbModel Row) (sql : String)
    (chunkSize : Nat) : List (List Row) × Option String :=
  match db.result sql with
  | Except.ok rows => (chunksOf chunkSize rows, none)
  | Except.error e => ([], some e)

/-- `executeStreamingTool` driven by the DuckDB-backed store model, for the
runs in which the schema probe succeeds and returns `db.columns` (the
employees table exists in this model; the probe-failure path is
`executeStreamingToolProbed`). -/
def executeStreamingTool {Row : Type} (input : DbQueryToolInput) (db : DbModel Row) :
    List (Event Row) :=
  executeStreamingToolGen input db.columns
    (fun sql => executeStreamingQueryModel db sql dbChunkSize)

/-- The value returned by `streamExecute`: the rows serialized one per content
entry, and the `_meta.totalRows` counter. -/
structure StreamExecuteResult (Row : Type) where
  content : List Row
  totalRows : Nat
deriving DecidableEq

/-- `DbQueryTool.streamExecute` (dbQueryTool.ts lines 54 to 103): validate,
apply the limit, run the streaming query with database chunk size one, and
collect every row as one content entry; errors are rethrown. -/
def streamExecute {Row : Type} (input : DbQueryToolInput) (db : DbModel Row) :
    Except String (StreamExecuteResult Row) :=
  if input.sql = "" then Except.error sqlRequiredMessage
  else if validateQuery input.sql = false then Except.error invalidQueryMessage
  else
    let sql := applyLimit input.sql input.limit
    match db.result sql with
    | Except.error e => Except.error e
    | Except.ok rows =>
      let content := (chunksOf 1 rows).flatten
      Except.ok ⟨content, content.length⟩

/-- The limit `execute` forwards to `executeStreamingTool`: the JS spread
`...(input.limit && { limit: input.limit })` includes the limit only when it
is truthy (nonzero). -/
def passedLimit : Option Int → Option Int
  | some l => if l = 0 then none else some l
  | none => none

/-- `DbQueryTool.execute` (dbQueryTool.ts lines 108 to 155): validate, apply
the limit, then collect the full event list of `executeStreamingTool`, passing
the already-limited text together with the original limit when it is truthy.
The catch branch that returns an error JSON object is the `Except.error`
case. -/
def execute {Row : Type} (input : DbQueryToolInput) (db : DbModel Row) :
    Except String (List (Event Row)) :=
  if input.sql = "" then Except.error sqlRequiredMessage
  else if validateQuery input.sql = false then Except.error invalidQueryMessage
  else
    let sql := applyLimit input.sql input.limit
    Except.ok (executeStreamingTool { sql := sql, limit := passedLimit input.limit } db)

/-- Is an event terminal (`query_complete` or `query_error`)? -/
def isTerminalEvent {Row : Type} : Event Row → Bool
  | Event.query_complete _ _ => true
  | Event.query_error _ => true
  | _ => false

/-- Is an event a `query_start`? -/
def isQueryStartEvent {Row : Type} : Event Row → Bool
  | Event.query_start _ _ => true
  | _ => false

/-- Is an event a `query_complete`? -/
def isQueryCompleteEvent {Row : Type} : Event Row → Bool
  | Event.query_complete _ _ => true
  | _ => false

/-- Is an event a `query_error`? -/
def isQueryErrorEvent {Row : Type} : Event Row → Bool
  | Event.query_error _ => true
  | _ => false

/-- The row payload of a `data_chunk` event. -/
def dataChunkRows {Row : Type} : Event Row → Option (List Row)
  | Event.data_chunk c _ _ _ => some c
  | _ => none

/-- The row payloads of all `data_chunk` events of a trace, in order. -/
def dataChunkRowLists {Row : Type} (evs : List (Event Row)) : List (List Row) :=
  evs.filterMap dataChunkRows

/-- The `(chunkNumber, rowsInChunk, totalRowsSoFar)` fields of a `data_chunk`. -/
def dataChunkTriple {Row : Type} : Event Row → Option (Nat × Nat × Nat)
  | Event.data_chunk _ n r t => some (n, r, t)
  | _ => none

/-- The numeric fields of all `data_chunk` events of a trace, in order. -/
def dataChunkTriples {Row : Type} (evs : List (Event Row)) : List (Nat × Nat × Nat) :=
  evs.filterMap dataChunkTriple

/-- Does a trace begin with a `query_start` event? -/
def headIsQueryStart {Row : Type} : List (Event Row) → Bool
  | Event.query_start _ _ :: _ => true
  | _ => false

/-- Analysis helper: the full chunks the loop emits while folding `rows` into
a buffer `buf` (every emission happens exactly when the buffer reaches the
chunk size). -/
def fullChunksAux {Row : Type} (chunkSize : Nat) (buf : List Row) : List Row → List (List Row)
  | [] => []
  | r :: rs =>
    if chunkSize ≤ buf.length + 1 then (buf ++ [r]) :: fullChunksAux chunkSize [] rs
    else fullChunksAux chunkSize (buf ++ [r]) rs

/-- Analysis helper: the buffer contents left after folding `rows` from `buf`. -/
def leftoverAux {Row : Type} (chunkSize : Nat) (buf : List Row) : List Row → List Row
  | [] => buf
  | r :: rs =>
    if chunkSize ≤ buf.length + 1 then leftoverAux chunkSize [] rs
    else leftoverAux chunkSize (buf ++ [r]) rs

/-- Analysis helper: the `data_chunk` events carrying the chunk list `cs`,
numbering them from `num + 1` and accumulating totals from `tot`. -/
def mkChunkEvents {Row : Type} (num tot : Nat) : List (List Row) → List (Event Row)
  | [] => []
  | c :: cs =>
    Event.data_chunk c (num + 1) c.length (tot + c.length) ::
      mkChunkEvents (num + 1) (tot + c.length) cs

/-- Analysis helper: the `(chunkNumber, rowsInChunk, totalRowsSoFar)` fields of
the events `mkChunkEvents` builds, as a function of the chunk sizes alone. -/
def mkTriples (num tot : Nat) : List Nat → List (Nat × Nat × Nat)
  | [] => []
  | n :: ns => (num + 1, n, tot + n) :: mkTriples (num + 1) (tot + n) ns

/-- Analysis helper: all chunks the loop plus final flush emit for `rows`. -/
def allChunks {Row : Type} (chunkSize : Nat) (rows : List Row) : List (List Row) :=
  fullChunksAux chunkSize [] rows ++
    (match leftoverAux chunkSize [] rows with
     | [] => []
     | l => [l])

/-- The Hinnant civil-from-days algorithm: the proleptic Gregorian date
`(year, month, day)` of a day index counted from 1970-01-01. -/
def civilFromDays (z : Int) : Int × Int × Int :=
  let z2 := z + 719468
  let era := Int.fdiv z2 146097
  let doe := z2 - era * 146097
  let yoe := Int.fdiv (doe - Int.fdiv doe 1460 + Int.fdiv doe 36524 - Int.fdiv doe 146096) 365
  let y := yoe + era * 400
  let doy := doe - (365 * yoe + Int.fdiv yoe 4 - Int.fdiv yoe 100)
  let mp := Int.fdiv (5 * doy + 2) 153
  let d := doy - Int.fdiv (153 * mp + 2) 5 + 1
  let m := mp + (if mp < 10 then 3 else -9)
  (y + (if m ≤ 2 then 1 else 0), m, d)

/-- Zero-padding of a digit list to a given width. -/
def padTo (w : Nat) (l : List Char) : List Char :=
  if l.length < w then List.replicate (w - l.length) '0' ++ l else l

/-- Format a civil date as the `YYYY-MM-DD` string `toISOString` prints. -/
def formatYmd : Int × Int × Int → String
  | (y, m, d) =>
    ⟨padTo 4 (natDigits y.toNat) ++ '-' :: (padTo 2 (natDigits m.toNat) ++ '-' :: padTo 2 (natDigits d.toNat))⟩

/-- The UTC day index printed by `toISOString` for the `Date` built in
`convertBigIntsToNumbers` (db.ts lines 88 to 92): `new Date(1970, 0, 1)` is
midnight LOCAL time, so its epoch instant is `-tzOffsetMinutes` minutes;
`setDate(1 + days)` advances it by `days` local days; `toISOString` then
converts back to UTC.  `tzOffsetMinutes` is the UTC offset of the environment in
minutes, positive east of UTC, assumed constant (no daylight saving jump
between the two dates involved). -/
def jsLocalDateToUtcDay (tzOffsetMinutes : Int) (days : Int) : Int :=
  Int.fdiv (days * 86400000 - tzOffsetMinutes * 60000) 86400000

/-- The `YYYY-MM-DD` string `convertBigIntsToNumbers` produces for a DuckDB
date object with the given `days` field, in an environment with the given
constant UTC offset. -/
def convertDuckDbDate (tzOffsetMinutes : Int) (days : Int) : String :=
  formatYmd (civilFromDays (jsLocalDateToUtcDay tzOffsetMinutes days))

/-- Is a session id present in the registry (server.ts `this.sessions.has`)?
The registry is modelled as an association list with distinct keys, the order
of a JS `Map`. -/
def hasSession {α : Type} (sessions : List (String × α)) (id : String) : Bool :=
  sessions.any (fun p => p.1 == id)

/-- `this.sessions.delete(sessionId)`: remove the entry with the given key. -/
def deleteSession {α : Type} (sessions : List (String × α)) (id : String) :
    List (String × α) :=
  sessions.filter (fun p => !(p.1 == id))

/-- The JSON body of the response of the DELETE endpoint. -/
structure TerminateResponse where
  success : Bool
  message : String
deriving DecidableEq

/-- The `DELETE /mcp/:sessionId` handler (server.ts lines 525 to 541): when the
id is known, delete it and report success; otherwise answer a not-found
failure, leaving the registry untouched. -/
def handleDeleteSession {α : Type} (sessions : List (String × α)) (id : String) :
    List (String × α) × TerminateResponse :=
  if hasSession sessions id then
    (deleteSession sessions id, ⟨true, "Session " ++ id ++ " terminated successfully"⟩)
  else
    (sessions, ⟨false, "Session " ++ id ++ " not found"⟩)

/-! ### Analysis of the chunk-sequencing loop -/

theorem fullChunksAux_length {Row : Type} (C : Nat) (hC : 0 < C) :
    ∀ (rows buf : List Row), buf.length < C →
      (fullChunksAux C buf rows).length = (buf.length + rows.length) / C := by
  intro rows
  induction rows with
  | nil =>
    intro buf hb
    simp [fullChunksAux, Nat.div_eq_of_lt hb]
  | cons r rs ih =>
    intro buf hb
    simp only [fullChunksAux]
    by_cases h : C ≤ buf.length + 1
    · have h1 : buf.length + (r :: rs).length = rs.length + C := by
        simp only [List.length_cons]; omega
      rw [if_pos h, List.length_cons, ih [] (by simpa using hC), h1, Nat.add_div_right _ hC]
      simp
    · have h1 : (buf ++ [r]).length + rs.length = buf.length + (r :: rs).length := by
        simp only [List.length_append, List.length_cons, List.length_nil]; omega
      rw [if_neg h, ih (buf ++ [r]) (by simp only [List.length_append]; simp; omega), h1]

theorem leftoverAux_length {Row : Type} (C : Nat) (hC : 0 < C) :
    ∀ (rows buf : List Row), buf.length < C →
      (leftoverAux C buf rows).length = (buf.length + rows.length) % C := by
  intro rows
  induction rows with
  | nil =>
    intro buf hb
    simp [leftoverAux, Nat.mod_eq_of_lt hb]
  | cons r rs ih =>
    intro buf hb
    simp only [leftoverAux]
    by_cases h : C ≤ buf.length + 1
    · have h1 : buf.length + (r :: rs).length = rs.length + C := by
        simp only [List.length_cons]; omega
      rw [if_pos h, ih [] (by simpa using hC), h1, Nat.add_mod_right]
      simp
    · have h1 : (buf ++ [r]).length + rs.length = buf.length + (r :: rs).length := by
        simp only [List.length_append, List.length_cons, List.length_nil]; omega
      rw [if_neg h, ih (buf ++ [r]) (by simp only [List.length_append]; simp; omega), h1]

theorem fullChunksAux_sizes {Row : Type} (C : Nat) :
    ∀ (rows buf : List Row), buf.length < C →
      ∀ c ∈ fullChunksAux C buf rows, c.length = C := by
  intro rows
  induction rows with
  | nil => intro buf _ c hc; simp [fullChunksAux] at hc
  | cons r rs ih =>
    intro buf hb c hc
    simp only [fullChunksAux] at hc
    by_cases h : C ≤ buf.length + 1
    · rw [if_pos h] at hc
      rcases List.mem_cons.1 hc with hceq | hmem
      · subst hceq; simp only [List.length_append, List.length_cons, List.length_nil]; omega
      · exact ih [] (by simp; omega) c hmem
    · rw [if_neg h] at hc
      exact ih (buf ++ [r]) (by simp only [List.length_append]; simp; omega) c hc

theorem fullChunksAux_append_leftover {Row : Type} (C : Nat) :
    ∀ (rows buf : List Row),
      (fullChunksAux C buf rows).flatten ++ leftoverAux C buf rows = buf ++ rows := by
  intro rows
  induction rows with
  | nil => intro buf; simp [fullChunksAux, leftoverAux]
  | cons r rs ih =>
    intro buf
    simp only [fullChunksAux, leftoverAux]
    by_cases h : C ≤ buf.length + 1
    · rw [if_pos h, if_pos h]
      simp only [List.flatten_cons, List.append_assoc]
      rw [ih []]
      simp
    · rw [if_neg h, if_neg h, ih (buf ++ [r])]
      simp

theorem mkChunkEvents_append {Row : Type} :
    ∀ (cs ds : List (List Row)) (num tot : Nat),
      mkChunkEvents num tot (cs ++ ds) =
        mkChunkEvents num tot cs ++
          mkChunkEvents (num + cs.length) (tot + (cs.map List.length).sum) ds := by
  intro cs
  induction cs with
  | nil => intro ds num tot; simp [mkChunkEvents]
  | cons c cs ih =>
    intro ds num tot
    simp only [List.cons_append, mkChunkEvents, List.length_cons, List.map_cons, List.sum_cons,
      List.append_eq]
    rw [ih]
    have h1 : num + 1 + cs.length = num + (cs.length + 1) := by omega
    have h2 : tot + c.length + (cs.map List.length).sum
        = tot + (c.length + (cs.map List.length).sum) := by omega
    rw [h1, h2]

theorem runRows_spec {Row : Type} (C : Nat) (hC : 0 < C) :
    ∀ (rows buf : List Row) (tot num : Nat) (evs : List (Event Row)),
      buf.length < C → buf.length ≤ tot →
      runRows C ⟨buf, tot, num, evs⟩ rows =
        ⟨leftoverAux C buf rows, tot + rows.length,
         num + (fullChunksAux C buf rows).length,
         evs ++ mkChunkEvents num (tot - buf.length) (fullChunksAux C buf rows)⟩ := by
  intro rows
  induction rows with
  | nil =>
    intro buf tot num evs hb ht
    simp [runRows, fullChunksAux, leftoverAux, mkChunkEvents]
  | cons r rs ih =>
    intro buf tot num evs hb ht
    have step : runRows C ⟨buf, tot, num, evs⟩ (r :: rs) =
        runRows C (pushRow C ⟨buf, tot, num, evs⟩ r) rs := rfl
    rw [step]
    by_cases h : C ≤ buf.length + 1
    · have hpush : pushRow C ⟨buf, tot, num, evs⟩ r =
          ⟨[], tot + 1, num + 1,
           evs ++ [Event.data_chunk (buf ++ [r]) (num + 1) (buf.length + 1) (tot + 1)]⟩ := by
        simp only [pushRow, List.length_append, List.length_cons, List.length_nil]
        rw [if_pos (by omega)]
      rw [hpush, ih [] (tot + 1) (num + 1) _ (by simp; omega) (by simp)]
      simp only [fullChunksAux, leftoverAux, if_pos h]
      have e1 : tot + 1 + rs.length = tot + (r :: rs).length := by
        simp only [List.length_cons]; omega
      have e2 : num + 1 + (fullChunksAux C [] rs).length
          = num + ((buf ++ [r]) :: fullChunksAux C [] rs).length := by
        simp only [List.length_cons]; omega
      have e3 : evs ++ [Event.data_chunk (buf ++ [r]) (num + 1) (buf.length + 1) (tot + 1)] ++
            mkChunkEvents (num + 1) (tot + 1 - List.length ([] : List Row)) (fullChunksAux C [] rs)
          = evs ++ mkChunkEvents num (tot - buf.length)
              ((buf ++ [r]) :: fullChunksAux C [] rs) := by
        simp only [mkChunkEvents, List.length_nil, Nat.sub_zero, List.length_append,
          List.length_cons, List.append_assoc, List.singleton_append]
        have e4 : tot - buf.length + (buf.length + (0 + 1)) = tot + 1 := by omega
        rw [e4]
      rw [e1, e2, e3]
    · have hpush : pushRow C ⟨buf, tot, num, evs⟩ r = ⟨buf ++ [r], tot + 1, num, evs⟩ := by
        simp only [pushRow, List.length_append, List.length_cons, List.length_nil]
        rw [if_neg (by omega)]
      rw [hpush, ih (buf ++ [r]) (tot + 1) num evs
        (by simp only [List.length_append]; simp; omega)
        (by simp only [List.length_append]; simp; omega)]
      simp only [fullChunksAux, leftoverAux, if_neg h]
      have e1 : tot + 1 + rs.length = tot + (r :: rs).length := by
        simp only [List.length_cons]; omega
      have e2 : tot + 1 - (buf ++ [r]).length = tot - buf.length := by
        simp only [List.length_append, List.length_cons, List.length_nil]; omega
      rw [e1, e2]

theorem runRows_init {Row : Type} (C : Nat) (hC : 0 < C) (rows : List Row) :
    runRows C (initialStreamState Row) rows =
      ⟨leftoverAux C [] rows, rows.length, (fullChunksAux C [] rows).length,
       mkChunkEvents 0 0 (fullChunksAux C [] rows)⟩ := by
  have h := runRows_spec C hC rows [] 0 0 []
    (by simpa using hC) (by simp)
  simpa [initialStreamState] using h

theorem flush_runRows_init {Row : Type} (C : Nat) (hC : 0 < C) (rows : List Row) :
    flushChunk (runRows C (initialStreamState Row) rows) =
      ⟨[], rows.length, (allChunks C rows).length,
       mkChunkEvents 0 0 (allChunks C rows)⟩ := by
  rw [runRows_init C hC rows]
  have hsum : ((fullChunksAux C [] rows).map List.length).sum
      + (leftoverAux C [] rows).length = rows.length := by
    have h := fullChunksAux_append_leftover C rows []
    have h2 := congrArg List.length h
    simpa [List.length_append, List.length_flatten] using h2
  rcases hl : leftoverAux C [] rows with _ | ⟨x, xs⟩
  · simp only [flushChunk, allChunks, hl, List.length_nil]
    rw [if_neg (by omega)]
    simp
  · simp only [flushChunk, allChunks, hl, List.length_cons]
    rw [if_pos (by omega)]
    rw [hl] at hsum
    simp only [List.length_cons] at hsum
    rw [mkChunkEvents_append]
    simp only [mkChunkEvents, List.length_append, List.length_cons, List.length_nil,
      List.append_nil, Nat.zero_add]
    rw [hsum]

/-! ### Shape of the traces of executeStreamingToolGen -/

theorem streamChunkSize_pos : 0 < streamChunkSize := by decide

theorem gen_rejected {Row : Type} (input : DbQueryToolInput) (cols : List String)
    (runQuery : String → List (List Row) × Option String)
    (h : input.sql = "" ∨ validateQuery input.sql = false) :
    executeStreamingToolGen input cols runQuery =
      [Event.query_error (if input.sql = "" then sqlRequiredMessage else invalidQueryMessage)] := by
  by_cases h0 : input.sql = ""
  · simp [executeStreamingToolGen, h0]
  · rcases h with h | h
    · exact absurd h h0
    · simp [executeStreamingToolGen, h0, h]

theorem gen_valid_none {Row : Type} (input : DbQueryToolInput) (cols : List String)
    (runQuery : String → List (List Row) × Option String) (chunks : List (List Row))
    (h0 : ¬ input.sql = "") (h1 : validateQuery input.sql = true)
    (h2 : runQuery (applyLimit input.sql input.limit) = (chunks, none)) :
    executeStreamingToolGen input cols runQuery =
      Event.query_start (applyLimit input.sql input.limit) cols ::
        (mkChunkEvents 0 0 (allChunks streamChunkSize chunks.flatten) ++
         [Event.query_complete chunks.flatten.length
            (allChunks streamChunkSize chunks.flatten).length]) := by
  simp only [executeStreamingToolGen, if_neg h0, h1, Bool.true_eq_false, if_false, h2]
  rw [flush_runRows_init streamChunkSize streamChunkSize_pos]

theorem gen_valid_some {Row : Type} (input : DbQueryToolInput) (cols : List String)
    (runQuery : String → List (List Row) × Option String) (chunks : List (List Row))
    (msg : String)
    (h0 : ¬ input.sql = "") (h1 : validateQuery input.sql = true)
    (h2 : runQuery (applyLimit input.sql input.limit) = (chunks, some msg)) :
    executeStreamingToolGen input cols runQuery =
      Event.query_start (applyLimit input.sql input.limit) cols ::
        (mkChunkEvents 0 0 (fullChunksAux streamChunkSize [] chunks.flatten) ++
         [Event.query_error msg]) := by
  simp only [executeStreamingToolGen, if_neg h0, h1, Bool.true_eq_false, if_false, h2]
  rw [runRows_init streamChunkSize streamChunkSize_pos]

/-! ### Structure of the analysis helpers -/

theorem mem_mkChunkEvents {Row : Type} :
    ∀ (cs : List (List Row)) (num tot : Nat) (e : Event Row),
      e ∈ mkChunkEvents num tot cs → ∃ c n r t, e = Event.data_chunk c n r t := by
  intro cs
  induction cs with
  | nil => intro num tot e he; simp [mkChunkEvents] at he
  | cons c cs ih =>
    intro num tot e he
    rcases List.mem_cons.1 he with heq | hmem
    · exact ⟨c, num + 1, c.length, tot + c.length, heq⟩
    · exact ih (num + 1) (tot + c.length) e hmem

theorem dataChunkRowLists_mkChunkEvents {Row : Type} :
    ∀ (cs : List (List Row)) (num tot : Nat),
      dataChunkRowLists (mkChunkEvents num tot cs) = cs := by
  intro cs
  induction cs with
  | nil => intro num tot; simp [mkChunkEvents, dataChunkRowLists]
  | cons c cs ih =>
    intro num tot
    simp only [mkChunkEvents, dataChunkRowLists, List.filterMap_cons]
    rw [show dataChunkRows (Event.data_chunk c (num + 1) c.length (tot + c.length))
      = some c from rfl]
    simpa [dataChunkRowLists] using ih (num + 1) (tot + c.length)

theorem dataChunkTriples_mkChunkEvents {Row : Type} :
    ∀ (cs : List (List Row)) (num tot : Nat),
      dataChunkTriples (mkChunkEvents num tot cs) = mkTriples num tot (cs.map List.length) := by
  intro cs
  induction cs with
  | nil => intro num tot; simp [mkChunkEvents, dataChunkTriples, mkTriples]
  | cons c cs ih =>
    intro num tot
    simp only [mkChunkEvents, dataChunkTriples, List.filterMap_cons, List.map_cons, mkTriples]
    rw [show dataChunkTriple (Event.data_chunk c (num + 1) c.length (tot + c.length))
      = some (num + 1, c.length, tot + c.length) from rfl]
    simpa [dataChunkTriples] using ih (num + 1) (tot + c.length)

theorem mkTriples_length (ns : List Nat) : ∀ (num tot : Nat),
    (mkTriples num tot ns).length = ns.length := by
  induction ns with
  | nil => intro num tot; simp [mkTriples]
  | cons n ns ih => intro num tot; simp [mkTriples, ih]

theorem mkTriples_map_rows (ns : List Nat) : ∀ (num tot : Nat),
    (mkTriples num tot ns).map (fun p => p.2.1) = ns := by
  induction ns with
  | nil => intro num tot; simp [mkTriples]
  | cons n ns ih => intro num tot; simp [mkTriples, ih]

theorem mkTriples_getElem (ns : List Nat) : ∀ (num tot i : Nat) (p : Nat × Nat × Nat),
    (mkTriples num tot ns)[i]? = some p →
      p.1 = num + (i + 1) ∧ p.2.2 = tot + (ns.take (i + 1)).sum := by
  induction ns with
  | nil => intro num tot i p hp; simp [mkTriples] at hp
  | cons n ns ih =>
    intro num tot i p hp
    match i with
    | 0 =>
      simp only [mkTriples, List.getElem?_cons_zero, Option.some_inj] at hp
      subst hp
      simp
    | Nat.succ j =>
      simp only [mkTriples, List.getElem?_cons_succ] at hp
      have h := ih (num + 1) (tot + n) j p hp
      refine ⟨by omega, ?_⟩
      rw [h.2]
      simp only [List.take_succ_cons, List.sum_cons]
      omega

theorem allChunks_flatten {Row : Type} (C : Nat) (rows : List Row) :
    (allChunks C rows).flatten = rows := by
  have h := fullChunksAux_append_leftover C rows []
  simp only [List.nil_append] at h
  rcases hl : leftoverAux C [] rows with _ | ⟨x, xs⟩
  · rw [hl] at h
    simpa [allChunks, hl] using h
  · rw [hl] at h
    simp only [allChunks, hl, List.flatten_append, List.flatten_cons, List.flatten_nil,
      List.append_nil]
    exact h

theorem allChunks_sizes_sum {Row : Type} (C : Nat) (rows : List Row) :
    ((allChunks C rows).map List.length).sum = rows.length := by
  have h := congrArg List.length (allChunks_flatten C rows)
  simpa [List.length_flatten] using h

theorem div_ceil_eq (C R : Nat) (hC : 0 < C) :
    R / C + (if R % C = 0 then 0 else 1) = (R + C - 1) / C := by
  have hqr := Nat.div_add_mod R C
  set q := R / C with hq
  set r := R % C with hr
  have hrlt : r < C := Nat.mod_lt _ hC
  by_cases h : r = 0
  · have e1 : R + C - 1 = C * q + (C - 1) := by omega
    rw [if_pos h, e1, Nat.mul_add_div hC, Nat.div_eq_of_lt (by omega)]
  · have hmul : C * (q + 1) = C * q + C := by ring
    have e1 : R + C - 1 = C * (q + 1) + (r - 1) := by omega
    rw [if_neg h, e1, Nat.mul_add_div hC, Nat.div_eq_of_lt (by omega)]

theorem allChunks_length {Row : Type} (C : Nat) (hC : 0 < C) (rows : List Row) :
    (allChunks C rows).length = (rows.length + C - 1) / C := by
  have hfull := fullChunksAux_length C hC rows [] (by simpa using hC)
  have hleft := leftoverAux_length C hC rows [] (by simpa using hC)
  simp only [List.length_nil, Nat.zero_add] at hfull hleft
  rw [← div_ceil_eq C rows.length hC]
  rcases hl : leftoverAux C [] rows with _ | ⟨x, xs⟩
  · have hmod : rows.length % C = 0 := by rw [← hleft, hl]; rfl
    simp [allChunks, hl, hfull, hmod]
  · have hmod : rows.length % C = xs.length + 1 := by rw [← hleft, hl]; rfl
    simp only [allChunks, hl, List.length_append, List.length_cons, List.length_nil, hfull]
    rw [if_neg (by omega)]

theorem allChunks_dropLast_sizes {Row : Type} (C : Nat) (hC : 0 < C) (rows : List Row) :
    ∀ c ∈ (allChunks C rows).dropLast, c.length = C := by
  intro c hc
  have hsizes := fullChunksAux_sizes C rows [] (by simpa using hC)
  rcases hl : leftoverAux C [] rows with _ | ⟨x, xs⟩
  · simp only [allChunks, hl, List.append_nil] at hc
    exact hsizes c ((List.dropLast_sublist _).subset hc)
  · simp only [allChunks, hl, List.dropLast_concat] at hc
    exact hsizes c hc

theorem allChunks_ne_nil {Row : Type} (C : Nat) (hC : 0 < C) (rows : List Row) :
    ∀ c ∈ allChunks C rows, c ≠ [] := by
  intro c hc
  have hsizes := fullChunksAux_sizes C rows [] (by simpa using hC)
  rcases hl : leftoverAux C [] rows with _ | ⟨x, xs⟩
  · simp only [allChunks, hl, List.append_nil] at hc
    have := hsizes c hc
    intro hnil
    rw [hnil] at this
    simp at this
    omega
  · simp only [allChunks, hl] at hc
    rcases List.mem_append.1 hc with hmem | hmem
    · have := hsizes c hmem
      intro hnil
      rw [hnil] at this
      simp at this
      omega
    · simp only [List.mem_singleton] at hmem
      subst hmem
      simp

theorem allChunks_getLast {Row : Type} (C : Nat) (hC : 0 < C) (rows : List Row) :
    ∀ c, (allChunks C rows).getLast? = some c →
      c.length = if rows.length % C = 0 then C else rows.length % C := by
  intro c hc
  have hsizes := fullChunksAux_sizes C rows [] (by simpa using hC)
  have hleft := leftoverAux_length C hC rows [] (by simpa using hC)
  simp only [List.length_nil, Nat.zero_add] at hleft
  rcases hl : leftoverAux C [] rows with _ | ⟨x, xs⟩
  · have hmod : rows.length % C = 0 := by rw [← hleft, hl]; rfl
    simp only [allChunks, hl, List.append_nil] at hc
    rw [if_pos hmod]
    exact hsizes c (List.mem_of_getLast?_eq_some hc)
  · have hmod : rows.length % C = xs.length + 1 := by rw [← hleft, hl]; rfl
    simp only [allChunks, hl, List.getLast?_concat, Option.some_inj] at hc
    subst hc
    rw [if_neg (by omega), hmod]
    simp

theorem countP_mkChunkEvents_eq_zero {Row : Type} (p : Event Row → Bool)
    (hp : ∀ c n r t, p (Event.data_chunk c n r t) = false)
    (cs : List (List Row)) (num tot : Nat) :
    (mkChunkEvents num tot cs).countP p = 0 := by
  rw [List.countP_eq_zero]
  intro e he
  obtain ⟨c, n, r, t, rfl⟩ := mem_mkChunkEvents cs num tot e he
  simp [hp]

theorem fullChunksAux_flatten_length {Row : Type} (C : Nat) (hC : 0 < C) (rows : List Row) :
    ((fullChunksAux C [] rows).flatten).length = C * (rows.length / C) := by
  have hsizes := fullChunksAux_sizes C rows [] (by simpa using hC)
  have hlen := fullChunksAux_length C hC rows [] (by simpa using hC)
  simp only [List.length_nil, Nat.zero_add] at hlen
  have hrep : (fullChunksAux C [] rows).map List.length
      = List.replicate (fullChunksAux C [] rows).length C := by
    have := List.eq_replicate_of_mem (a := C)
      (l := (fullChunksAux C [] rows).map List.length) ?_
    · simpa using this
    · intro b hb
      obtain ⟨c, hc, rfl⟩ := List.mem_map.1 hb
      exact hsizes c hc
  rw [List.length_flatten, hrep, List.sum_replicate, smul_eq_mul, hlen, Nat.mul_comm]

/-! ### C1: the chunk-sequencing loop partitions the rows into ceil(R/C) chunks -/

/-- C1: for every finite row sequence and positive chunk size `C`, the
chunk-sequencing loop of `executeStreamingTool` (the fold of `pushRow` over
the rows followed by the final flush, instantiated with `C = streamChunkSize`
in the tool) emits exactly `(R + C - 1) / C = ceil(R/C)` data chunks (zero
when `R = 0`), never a zero-size chunk; concatenating the chunks in emission
order gives back exactly the source rows (so every row appears in exactly one
chunk and order is preserved); every chunk except possibly the last has
exactly `C` rows; and the last chunk has `R mod C` rows, or `C` when `R` is a
positive exact multiple of `C`. -/
theorem chunkSequencer_spec {Row : Type} (C : Nat) (hC : 0 < C) (rows : List Row) :
    (dataChunkRowLists (flushChunk (runRows C (initialStreamState Row) rows)).events).length
        = (rows.length + C - 1) / C ∧
    (dataChunkRowLists (flushChunk (runRows C (initialStreamState Row) rows)).events).flatten
        = rows ∧
    (∀ c ∈ (dataChunkRowLists
        (flushChunk (runRows C (initialStreamState Row) rows)).events).dropLast,
        c.length = C) ∧
    (∀ c ∈ dataChunkRowLists (flushChunk (runRows C (initialStreamState Row) rows)).events,
        c ≠ []) ∧
    (∀ c, (dataChunkRowLists
        (flushChunk (runRows C (initialStreamState Row) rows)).events).getLast? = some c →
        c.length = if rows.length % C = 0 then C else rows.length % C) := by
  have hchar : dataChunkRowLists (flushChunk (runRows C (initialStreamState Row) rows)).events
      = allChunks C rows := by
    rw [flush_runRows_init C hC rows]
    exact dataChunkRowLists_mkChunkEvents _ 0 0
  rw [hchar]
  exact ⟨allChunks_length C hC rows, allChunks_flatten C rows,
    allChunks_dropLast_sizes C hC rows, allChunks_ne_nil C hC rows,
    allChunks_getLast C hC rows⟩

theorem chunkSequencer_spec_witness :
    (0 : Nat) < 2 ∧
    ((dataChunkRowLists (flushChunk (runRows 2 (initialStreamState Nat) [10, 20, 30])).events).length
        = (([10, 20, 30] : List Nat).length + 2 - 1) / 2 ∧
    (dataChunkRowLists (flushChunk (runRows 2 (initialStreamState Nat) [10, 20, 30])).events).flatten
        = [10, 20, 30] ∧
    (∀ c ∈ (dataChunkRowLists
        (flushChunk (runRows 2 (initialStreamState Nat) [10, 20, 30])).events).dropLast,
        c.length = 2) ∧
    (∀ c ∈ dataChunkRowLists (flushChunk (runRows 2 (initialStreamState Nat) [10, 20, 30])).events,
        c ≠ []) ∧
    (∀ c, (dataChunkRowLists
        (flushChunk (runRows 2 (initialStreamState Nat) [10, 20, 30])).events).getLast? = some c →
        c.length = if ([10, 20, 30] : List Nat).length % 2 = 0 then 2
          else ([10, 20, 30] : List Nat).length % 2)) :=
  ⟨by decide, chunkSequencer_spec 2 (by decide) [10, 20, 30]⟩

/-! ### C2: query_complete totals reconcile with the data chunks -/

/-- C2: on every successful run (the row source ends without error), the trace
of `executeStreamingTool` ends with a `query_complete` event whose
`totalRows` equals the sum of the `rowsInChunk` fields of all previously
emitted `data_chunk` events and whose `totalChunks` equals their count, and
that completion event is the only one in the trace. -/
theorem queryComplete_totals {Row : Type} (input : DbQueryToolInput) (cols : List String)
    (runQuery : String → List (List Row) × Option String) (chunks : List (List Row))
    (h0 : ¬ input.sql = "") (h1 : validateQuery input.sql = true)
    (h2 : runQuery (applyLimit input.sql input.limit) = (chunks, none)) :
    ∃ tot cnt,
      (executeStreamingToolGen input cols runQuery).getLast?
          = some (Event.query_complete tot cnt) ∧
      tot = ((dataChunkTriples (executeStreamingToolGen input cols runQuery)).map
          (fun p => p.2.1)).sum ∧
      cnt = (dataChunkTriples (executeStreamingToolGen input cols runQuery)).length ∧
      (executeStreamingToolGen input cols runQuery).countP isQueryCompleteEvent = 1 := by
  rw [gen_valid_none input cols runQuery chunks h0 h1 h2]
  refine ⟨chunks.flatten.length, (allChunks streamChunkSize chunks.flatten).length, ?_, ?_, ?_, ?_⟩
  · rw [show (Event.query_start (applyLimit input.sql input.limit) cols ::
        (mkChunkEvents 0 0 (allChunks streamChunkSize chunks.flatten) ++
          [Event.query_complete chunks.flatten.length
            (allChunks streamChunkSize chunks.flatten).length]))
      = (Event.query_start (applyLimit input.sql input.limit) cols ::
          mkChunkEvents 0 0 (allChunks streamChunkSize chunks.flatten)) ++
        [Event.query_complete chunks.flatten.length
          (allChunks streamChunkSize chunks.flatten).length] by simp]
    exact List.getLast?_concat _
  · simp only [dataChunkTriples, List.filterMap_cons, List.filterMap_append]
    rw [show @dataChunkTriple Row
        (Event.query_start (applyLimit input.sql input.limit) cols) = none from rfl]
    rw [show @dataChunkTriple Row
        (Event.query_complete chunks.flatten.length
          (allChunks streamChunkSize chunks.flatten).length) = none from rfl]
    simp only [List.filterMap_cons_none, List.filterMap_nil, List.append_nil]
    rw [show (mkChunkEvents 0 0 (allChunks streamChunkSize chunks.flatten)).filterMap
        dataChunkTriple = dataChunkTriples (mkChunkEvents 0 0
          (allChunks streamChunkSize chunks.flatten)) from rfl]
    rw [dataChunkTriples_mkChunkEvents, mkTriples_map_rows, allChunks_sizes_sum]
  · simp only [dataChunkTriples, List.filterMap_cons, List.filterMap_append]
    rw [show @dataChunkTriple Row
        (Event.query_start (applyLimit input.sql input.limit) cols) = none from rfl]
    rw [show @dataChunkTriple Row
        (Event.query_complete chunks.flatten.length
          (allChunks streamChunkSize chunks.flatten).length) = none from rfl]
    simp only [List.filterMap_cons_none, List.filterMap_nil, List.append_nil]
    rw [show (mkChunkEvents 0 0 (allChunks streamChunkSize chunks.flatten)).filterMap
        dataChunkTriple = dataChunkTriples (mkChunkEvents 0 0
          (allChunks streamChunkSize chunks.flatten)) from rfl]
    rw [dataChunkTriples_mkChunkEvents, mkTriples_length, List.length_map]
  · simp only [List.countP_cons, List.countP_append]
    rw [countP_mkChunkEvents_eq_zero isQueryCompleteEvent (fun _ _ _ _ => rfl)]
    rfl

theorem queryComplete_totals_witness :
    (¬ ("SELECT 1" : String) = "") ∧ validateQuery "SELECT 1" = true ∧
    (∃ tot cnt,
      (executeStreamingToolGen ⟨"SELECT 1", none⟩ ["a"]
          (fun _ => ([[1, 2, 3], [4, 5, 6, 7]], none))).getLast?
          = some (Event.query_complete tot cnt) ∧
      tot = ((dataChunkTriples (executeStreamingToolGen ⟨"SELECT 1", none⟩ ["a"]
          (fun _ => ([[1, 2, 3], [4, 5, 6, 7]], (none : Option String))))).map
          (fun p => p.2.1)).sum ∧
      cnt = (dataChunkTriples (executeStreamingToolGen ⟨"SELECT 1", none⟩ ["a"]
          (fun _ => ([[1, 2, 3], [4, 5, 6, 7]], none)))).length ∧
      (executeStreamingToolGen ⟨"SELECT 1", none⟩ ["a"]
          (fun _ => ([[1, 2, 3], [4, 5, 6, 7]], none))).countP isQueryCompleteEvent = 1) :=
  ⟨by decide, by decide,
    queryComplete_totals ⟨"SELECT 1", none⟩ ["a"]
      (fun _ => ([[1, 2, 3], [4, 5, 6, 7]], none)) [[1, 2, 3], [4, 5, 6, 7]]
      (by decide) (by decide) rfl⟩

theorem dataChunkTriples_wrap {Row : Type} (q : String) (cols : List String)
    (cs : List (List Row)) (e : Event Row) (he : dataChunkTriple e = none) (num tot : Nat) :
    dataChunkTriples (Event.query_start q cols :: (mkChunkEvents num tot cs ++ [e]))
      = mkTriples num tot (cs.map List.length) := by
  simp only [dataChunkTriples, List.filterMap_cons, List.filterMap_append, he]
  rw [show @dataChunkTriple Row (Event.query_start q cols) = none from rfl]
  simp only [List.filterMap_nil, List.append_nil]
  exact dataChunkTriples_mkChunkEvents cs num tot

theorem dataChunkRowLists_wrap {Row : Type} (q : String) (cols : List String)
    (cs : List (List Row)) (e : Event Row) (he : dataChunkRows e = none) (num tot : Nat) :
    dataChunkRowLists (Event.query_start q cols :: (mkChunkEvents num tot cs ++ [e])) = cs := by
  simp only [dataChunkRowLists, List.filterMap_cons, List.filterMap_append, he]
  rw [show @dataChunkRows Row (Event.query_start q cols) = none from rfl]
  simp only [List.filterMap_nil, List.append_nil]
  exact dataChunkRowLists_mkChunkEvents cs num tot

theorem mem_mkTriples_rows (ns : List Nat) : ∀ (num tot : Nat) (p : Nat × Nat × Nat),
    p ∈ mkTriples num tot ns → p.2.1 ∈ ns := by
  intro num tot p hp
  have h : p.2.1 ∈ (mkTriples num tot ns).map (fun q => q.2.1) := List.mem_map_of_mem _ hp
  rwa [mkTriples_map_rows] at h

theorem take_sum_mono (ns : List Nat) (i j : Nat) (hij : i ≤ j) :
    (ns.take i).sum ≤ (ns.take j).sum := by
  have h1 : ns.take j = ns.take i ++ (ns.drop i).take (j - i) := by
    conv_lhs => rw [show j = i + (j - i) from by omega]
    exact List.take_add ns i (j - i)
  rw [h1, List.sum_append]
  exact Nat.le_add_right _ _

theorem gen_triples {Row : Type} (input : DbQueryToolInput) (cols : List String)
    (runQuery : String → List (List Row) × Option String) :
    ∃ ns, dataChunkTriples (executeStreamingToolGen input cols runQuery) = mkTriples 0 0 ns := by
  by_cases h0 : input.sql = ""
  · exact ⟨[], by rw [gen_rejected input cols runQuery (Or.inl h0)]; rfl⟩
  · by_cases h1 : validateQuery input.sql = true
    · rcases hsrc : runQuery (applyLimit input.sql input.limit) with ⟨chunks, err⟩
      rcases err with _ | msg
      · refine ⟨(allChunks streamChunkSize chunks.flatten).map List.length, ?_⟩
        rw [gen_valid_none input cols runQuery chunks h0 h1 hsrc]
        exact dataChunkTriples_wrap (applyLimit input.sql input.limit) cols
          (allChunks streamChunkSize chunks.flatten)
          (Event.query_complete chunks.flatten.length
            (allChunks streamChunkSize chunks.flatten).length) rfl 0 0
      · refine ⟨(fullChunksAux streamChunkSize [] chunks.flatten).map List.length, ?_⟩
        rw [gen_valid_some input cols runQuery chunks msg h0 h1 hsrc]
        exact dataChunkTriples_wrap (applyLimit input.sql input.limit) cols
          (fullChunksAux streamChunkSize [] chunks.flatten)
          (Event.query_error msg) rfl 0 0
    · refine ⟨[], ?_⟩
      rw [gen_rejected input cols runQuery (Or.inr (by simpa using h1))]
      rfl

/-! ### C3: chunk numbering and running totals -/

/-- C3: in every trace of `executeStreamingTool`, the `chunkNumber` of the
i-th `data_chunk` event (0-based i) is `i + 1` (so the numbers are strictly
increasing by one starting at 1), and its `totalRowsSoFar` equals the sum of
the `rowsInChunk` fields of the `data_chunk` events emitted so far; in
particular `totalRowsSoFar` is monotonically non-decreasing along the trace. -/
theorem dataChunk_numbering {Row : Type} (input : DbQueryToolInput) (cols : List String)
    (runQuery : String → List (List Row) × Option String) :
    (∀ (i : Nat) (p : Nat × Nat × Nat),
        (dataChunkTriples (executeStreamingToolGen input cols runQuery))[i]? = some p →
        p.1 = i + 1 ∧
        p.2.2 = (((dataChunkTriples (executeStreamingToolGen input cols runQuery)).take
          (i + 1)).map (fun q => q.2.1)).sum) ∧
    (∀ (i j : Nat) (p q : Nat × Nat × Nat), i ≤ j →
        (dataChunkTriples (executeStreamingToolGen input cols runQuery))[i]? = some p →
        (dataChunkTriples (executeStreamingToolGen input cols runQuery))[j]? = some q →
        p.2.2 ≤ q.2.2) := by
  obtain ⟨ns, hns⟩ := gen_triples input cols runQuery
  rw [hns]
  constructor
  · intro i p hp
    have h := mkTriples_getElem ns 0 0 i p hp
    refine ⟨by omega, ?_⟩
    have hmt : ((mkTriples 0 0 ns).take (i + 1)).map (fun q => q.2.1) = ns.take (i + 1) := by
      rw [List.map_take, mkTriples_map_rows]
    rw [h.2, hmt]
    omega
  · intro i j p q hij hp hq
    have h1 := mkTriples_getElem ns 0 0 i p hp
    have h2 := mkTriples_getElem ns 0 0 j q hq
    rw [h1.2, h2.2]
    have := take_sum_mono ns (i + 1) (j + 1) (by omega)
    omega

theorem dataChunk_numbering_witness :
    ((2, 2, 7) : Nat × Nat × Nat).1 = 1 + 1 ∧
    ((2, 2, 7) : Nat × Nat × Nat).2.2 =
      (((dataChunkTriples (@executeStreamingToolGen Nat ⟨"SELECT 1", none⟩ []
        (fun _ => ([[1, 2, 3, 4, 5, 6, 7]], none)))).take (1 + 1)).map (fun q => q.2.1)).sum :=
  (dataChunk_numbering ⟨"SELECT 1", none⟩ []
    (fun _ => ([[1, 2, 3, 4, 5, 6, 7]], none))).1 1 (2, 2, 7) (by decide)

/-! ### C4: overall event-sequence shape -/

theorem wrapped_trace_shape {Row : Type} (q : String) (cols : List String)
    (cs : List (List Row)) (num tot : Nat) (e : Event Row) (he : isTerminalEvent e = true)
    (hs : isQueryStartEvent e = false) :
    (Event.query_start q cols :: (mkChunkEvents num tot cs ++ [e]) ≠ []) ∧
    (Event.query_start q cols :: (mkChunkEvents num tot cs ++ [e])).countP isTerminalEvent = 1 ∧
    (Event.query_start q cols :: (mkChunkEvents num tot cs ++ [e])).getLast? = some e ∧
    (Event.query_start q cols :: (mkChunkEvents num tot cs ++ [e])).countP isQueryStartEvent = 1 ∧
    headIsQueryStart (Event.query_start q cols :: (mkChunkEvents num tot cs ++ [e])) = true := by
  refine ⟨by simp, ?_, ?_, ?_, rfl⟩
  · simp only [List.countP_cons, List.countP_append, List.countP_nil,
      countP_mkChunkEvents_eq_zero isTerminalEvent (fun _ _ _ _ => rfl), he]
    rw [show isTerminalEvent (Event.query_start q cols) = false from rfl]
    simp
  · rw [show Event.query_start q cols :: (mkChunkEvents num tot cs ++ [e])
      = (Event.query_start q cols :: mkChunkEvents num tot cs) ++ [e] by simp]
    exact List.getLast?_concat _
  · simp only [List.countP_cons, List.countP_append, List.countP_nil,
      countP_mkChunkEvents_eq_zero isQueryStartEvent (fun _ _ _ _ => rfl), hs]
    rw [show isQueryStartEvent (Event.query_start q cols) = true from rfl]
    simp

/-- Trace shape of the post-probe run `executeStreamingToolGen`: exactly one
terminal event, at the end; exactly one leading `query_start` when the input
passes the presence check and `validateQuery`; a single `query_error` when it
is rejected. -/
theorem gen_trace_shape {Row : Type} (input : DbQueryToolInput) (cols : List String)
    (runQuery : String → List (List Row) × Option String) :
    executeStreamingToolGen input cols runQuery ≠ [] ∧
    (executeStreamingToolGen input cols runQuery).countP isTerminalEvent = 1 ∧
    (∀ e, (executeStreamingToolGen input cols runQuery).getLast? = some e →
        isTerminalEvent e = true) ∧
    ((¬ input.sql = "" ∧ validateQuery input.sql = true) →
        (executeStreamingToolGen input cols runQuery).countP isQueryStartEvent = 1 ∧
        headIsQueryStart (executeStreamingToolGen input cols runQuery) = true) ∧
    ((input.sql = "" ∨ validateQuery input.sql = false) →
        ∃ m, executeStreamingToolGen input cols runQuery = [Event.query_error m]) := by
  by_cases h0 : input.sql = ""
  · rw [gen_rejected input cols runQuery (Or.inl h0)]
    refine ⟨by simp, rfl, ?_, ?_, fun _ => ⟨_, rfl⟩⟩
    · intro e hee
      simp only [List.getLast?_singleton, Option.some_inj] at hee
      subst hee
      rfl
    · intro hvalid
      exact absurd h0 hvalid.1
  · by_cases h1 : validateQuery input.sql = true
    · rcases hsrc : runQuery (applyLimit input.sql input.limit) with ⟨chunks, err⟩
      rcases err with _ | msg
      · rw [gen_valid_none input cols runQuery chunks h0 h1 hsrc]
        obtain ⟨w1, w2, w3, w4, w5⟩ := wrapped_trace_shape
          (applyLimit input.sql input.limit) cols (allChunks streamChunkSize chunks.flatten)
          0 0 (Event.query_complete chunks.flatten.length
            (allChunks streamChunkSize chunks.flatten).length) rfl rfl
        refine ⟨w1, w2, ?_, fun _ => ⟨w4, w5⟩, ?_⟩
        · intro e hee
          rw [w3] at hee
          simp only [Option.some_inj] at hee
          subst hee
          rfl
        · intro h
          rcases h with h | h
          · exact absurd h h0
          · rw [h1] at h
            simp at h
      · rw [gen_valid_some input cols runQuery chunks msg h0 h1 hsrc]
        obtain ⟨w1, w2, w3, w4, w5⟩ := wrapped_trace_shape
          (applyLimit input.sql input.limit) cols
          (fullChunksAux streamChunkSize [] chunks.flatten)
          0 0 (Event.query_error msg) rfl rfl
        refine ⟨w1, w2, ?_, fun _ => ⟨w4, w5⟩, ?_⟩
        · intro e hee
          rw [w3] at hee
          simp only [Option.some_inj] at hee
          subst hee
          rfl
        · intro h
          rcases h with h | h
          · exact absurd h h0
          · rw [h1] at h
            simp at h
    · have h1f : validateQuery input.sql = false := by simpa using h1
      rw [gen_rejected input cols runQuery (Or.inr h1f)]
      refine ⟨by simp, rfl, ?_, ?_, fun _ => ⟨_, rfl⟩⟩
      · intro e hee
        simp only [List.getLast?_singleton, Option.some_inj] at hee
        subst hee
        rfl
      · intro hvalid
        rw [hvalid.2] at h1f
        simp at h1f

/-- C4 (amended): every trace of `executeStreamingTool` (with the schema
probe at line 182 modelled as fallible) ends with exactly one terminal event
(`query_complete` or `query_error`) and no event of any kind follows it; when
the input passes the presence check and `validateQuery` and the schema probe
succeeds, the trace additionally starts with exactly one `query_start`; when
the input is rejected by validation, or the schema probe throws inside the
try block before the first yield, the trace is a single `query_error` with no
`query_start` at all (the original claim that every sequence starts with
`query_start` fails there). -/
theorem trace_shape {Row : Type} (input : DbQueryToolInput)
    (schemaProbe : Except String (List String))
    (runQuery : String → List (List Row) × Option String) :
    executeStreamingToolProbed input schemaProbe runQuery ≠ [] ∧
    (executeStreamingToolProbed input schemaProbe runQuery).countP isTerminalEvent = 1 ∧
    (∀ e, (executeStreamingToolProbed input schemaProbe runQuery).getLast? = some e →
        isTerminalEvent e = true) ∧
    ((¬ input.sql = "" ∧ validateQuery input.sql = true ∧
        (∃ cols, schemaProbe = Except.ok cols)) →
        (executeStreamingToolProbed input schemaProbe runQuery).countP
          isQueryStartEvent = 1 ∧
        headIsQueryStart (executeStreamingToolProbed input schemaProbe runQuery) = true) ∧
    ((input.sql = "" ∨ validateQuery input.sql = false ∨
        (∃ e, schemaProbe = Except.error e)) →
        ∃ m, executeStreamingToolProbed input schemaProbe runQuery
          = [Event.query_error m]) := by
  by_cases h0 : input.sql = ""
  · have hred : executeStreamingToolProbed input schemaProbe runQuery
        = [Event.query_error sqlRequiredMessage] := by
      simp [executeStreamingToolProbed, h0]
    rw [hred]
    refine ⟨by simp, rfl, ?_, ?_, fun _ => ⟨_, rfl⟩⟩
    · intro e hee
      simp only [List.getLast?_singleton, Option.some_inj] at hee
      subst hee
      rfl
    · intro hvalid
      exact absurd h0 hvalid.1
  · by_cases h1 : validateQuery input.sql = true
    · rcases schemaProbe with e | cols
      · have hred : executeStreamingToolProbed input (Except.error e) runQuery
            = [Event.query_error e] := by
          simp [executeStreamingToolProbed, h0, h1]
        rw [hred]
        refine ⟨by simp, rfl, ?_, ?_, fun _ => ⟨_, rfl⟩⟩
        · intro e2 hee
          simp only [List.getLast?_singleton, Option.some_inj] at hee
          subst hee
          rfl
        · intro hvalid
          obtain ⟨cols, hcols⟩ := hvalid.2.2
          cases hcols
      · have hred : executeStreamingToolProbed input (Except.ok cols) runQuery
            = executeStreamingToolGen input cols runQuery := by
          simp [executeStreamingToolProbed, h0, h1]
        rw [hred]
        obtain ⟨g1, g2, g3, g4, g5⟩ := gen_trace_shape input cols runQuery
        refine ⟨g1, g2, g3, fun h => g4 ⟨h.1, h.2.1⟩, ?_⟩
        intro h
        rcases h with h | h | ⟨e, he⟩
        · exact g5 (Or.inl h)
        · exact g5 (Or.inr h)
        · cases he
    · have h1f : validateQuery input.sql = false := by simpa using h1
      have hred : executeStreamingToolProbed input schemaProbe runQuery
          = [Event.query_error invalidQueryMessage] := by
        simp [executeStreamingToolProbed, h0, h1f]
      rw [hred]
      refine ⟨by simp, rfl, ?_, ?_, fun _ => ⟨_, rfl⟩⟩
      · intro e hee
        simp only [List.getLast?_singleton, Option.some_inj] at hee
        subst hee
        rfl
      · intro hvalid
        rw [hvalid.2.1] at h1f
        cases h1f

theorem trace_shape_witness :
    @executeStreamingToolProbed Nat ⟨"SELECT 1", none⟩ (Except.ok [])
        (fun _ => ([[1, 2]], none)) ≠ [] ∧
    (@executeStreamingToolProbed Nat ⟨"SELECT 1", none⟩ (Except.ok [])
        (fun _ => ([[1, 2]], none))).countP isTerminalEvent = 1 ∧
    (@executeStreamingToolProbed Nat ⟨"SELECT 1", none⟩ (Except.ok [])
        (fun _ => ([[1, 2]], none))).countP isQueryStartEvent = 1 := by
  obtain ⟨w1, w2, _, w4, _⟩ := @trace_shape Nat ⟨"SELECT 1", none⟩ (Except.ok [])
    (fun _ => ([[1, 2]], none))
  exact ⟨w1, w2, (w4 (by exact ⟨by decide, by decide, ⟨[], rfl⟩⟩)).1⟩

/-- C4 counterexample: for the rejected query text "DROP TABLE employees"
(with a schema probe that would succeed) the trace of `executeStreamingTool`
is a single `query_error` event, so it does not start with a `query_start`
event, refuting the claim that every event sequence (including those for
invalid queries) starts with one. -/
theorem trace_shape_counterexample :
    @executeStreamingToolProbed Nat ⟨"DROP TABLE employees", none⟩ (Except.ok [])
        (fun _ => ([], none)) = [Event.query_error invalidQueryMessage] ∧
    headIsQueryStart (@executeStreamingToolProbed Nat ⟨"DROP TABLE employees", none⟩
        (Except.ok []) (fun _ => ([], none))) = false := by
  exact ⟨by decide, by decide⟩

/-! ### C7: failure of the row source after k rows -/

/-- C7: when the row source raises an error after delivering `k` rows, the
trace of `executeStreamingTool` contains exactly `k / streamChunkSize` data
chunks, each carrying exactly `streamChunkSize` rows; it ends with exactly one
`query_error` carrying the message of the source; no `query_complete` is ever
emitted; and the rows of the already emitted chunks are exactly the first
`streamChunkSize * (k / streamChunkSize)` delivered rows in source order
(nothing is retracted). -/
theorem midstream_failure {Row : Type} (input : DbQueryToolInput) (cols : List String)
    (runQuery : String → List (List Row) × Option String) (chunks : List (List Row))
    (msg : String)
    (h0 : ¬ input.sql = "") (h1 : validateQuery input.sql = true)
    (h2 : runQuery (applyLimit input.sql input.limit) = (chunks, some msg)) :
    (dataChunkTriples (executeStreamingToolGen input cols runQuery)).length
        = chunks.flatten.length / streamChunkSize ∧
    (∀ p ∈ dataChunkTriples (executeStreamingToolGen input cols runQuery),
        p.2.1 = streamChunkSize) ∧
    (executeStreamingToolGen input cols runQuery).getLast?
        = some (Event.query_error msg) ∧
    (executeStreamingToolGen input cols runQuery).countP isQueryErrorEvent = 1 ∧
    (executeStreamingToolGen input cols runQuery).countP isQueryCompleteEvent = 0 ∧
    (dataChunkRowLists (executeStreamingToolGen input cols runQuery)).flatten
        <+: chunks.flatten ∧
    ((dataChunkRowLists (executeStreamingToolGen input cols runQuery)).flatten).length
        = streamChunkSize * (chunks.flatten.length / streamChunkSize) := by
  rw [gen_valid_some input cols runQuery chunks msg h0 h1 h2]
  have htr := dataChunkTriples_wrap (applyLimit input.sql input.limit) cols
    (fullChunksAux streamChunkSize [] chunks.flatten) (Event.query_error msg) rfl 0 0
  have hrl := dataChunkRowLists_wrap (applyLimit input.sql input.limit) cols
    (fullChunksAux streamChunkSize [] chunks.flatten) (Event.query_error msg) rfl 0 0
  have hlen := fullChunksAux_length streamChunkSize streamChunkSize_pos chunks.flatten []
    (by simp [streamChunkSize])
  simp only [List.length_nil, Nat.zero_add] at hlen
  have hsizes := fullChunksAux_sizes streamChunkSize chunks.flatten []
    (by simp [streamChunkSize])
  refine ⟨?_, ?_, ?_, ?_, ?_, ?_, ?_⟩
  · rw [htr, mkTriples_length, List.length_map, hlen]
  · intro p hp
    rw [htr] at hp
    have h := mem_mkTriples_rows _ 0 0 p hp
    obtain ⟨c, hc, hcp⟩ := List.mem_map.1 h
    rw [← hcp]
    exact hsizes c hc
  · rw [show Event.query_start (applyLimit input.sql input.limit) cols ::
      (mkChunkEvents 0 0 (fullChunksAux streamChunkSize [] chunks.flatten) ++
        [Event.query_error msg])
      = (Event.query_start (applyLimit input.sql input.limit) cols ::
          mkChunkEvents 0 0 (fullChunksAux streamChunkSize [] chunks.flatten)) ++
        [Event.query_error msg] by simp]
    exact List.getLast?_concat _
  · simp only [List.countP_cons, List.countP_append, List.countP_nil,
      countP_mkChunkEvents_eq_zero isQueryErrorEvent (fun _ _ _ _ => rfl)]
    rw [show @isQueryErrorEvent Row
      (Event.query_start (applyLimit input.sql input.limit) cols) = false from rfl]
    rw [show @isQueryErrorEvent Row (Event.query_error msg) = true from rfl]
    simp
  · simp only [List.countP_cons, List.countP_append, List.countP_nil,
      countP_mkChunkEvents_eq_zero isQueryCompleteEvent (fun _ _ _ _ => rfl)]
    rw [show @isQueryCompleteEvent Row
      (Event.query_start (applyLimit input.sql input.limit) cols) = false from rfl]
    rw [show @isQueryCompleteEvent Row (Event.query_error msg) = false from rfl]
    simp
  · rw [hrl]
    refine ⟨leftoverAux streamChunkSize [] chunks.flatten, ?_⟩
    have h := fullChunksAux_append_leftover streamChunkSize chunks.flatten []
    simpa using h
  · rw [hrl]
    exact fullChunksAux_flatten_length streamChunkSize streamChunkSize_pos chunks.flatten

theorem midstream_failure_witness :
    (¬ ("SELECT 1" : String) = "") ∧ validateQuery "SELECT 1" = true ∧
    ((dataChunkTriples (@executeStreamingToolGen Nat ⟨"SELECT 1", none⟩ []
        (fun _ => ([List.range 12], some "boom")))).length
        = ([List.range 12] : List (List Nat)).flatten.length / streamChunkSize ∧
     (@executeStreamingToolGen Nat ⟨"SELECT 1", none⟩ []
        (fun _ => ([List.range 12], some "boom"))).getLast?
        = some (Event.query_error "boom") ∧
     (@executeStreamingToolGen Nat ⟨"SELECT 1", none⟩ []
        (fun _ => ([List.range 12], some "boom"))).countP isQueryCompleteEvent = 0) := by
  obtain ⟨m1, _, m3, _, m5, _, _⟩ := @midstream_failure Nat ⟨"SELECT 1", none⟩ []
    (fun _ => ([List.range 12], some "boom")) [List.range 12] "boom"
    (by decide) (by decide) rfl
  exact ⟨by decide, by decide, m1, m3, m5⟩

/-! ### C5: rejected queries never reach the store -/

/-- C5: whenever the lowercased and trimmed query text does not begin with
"select", or contains one of the denylisted keywords as a substring,
`validateQuery` returns false and `executeStreamingTool` rejects the input up
front: its whole trace is one `query_error` event, the same for every row
source, so no query is ever sent to the store. -/
theorem validateQuery_rejects (sql : String)
    (h : jsStartsWith (jsTrim (jsToLower sql)) "select" = false ∨
         ∃ kw ∈ dangerousKeywords, jsIncludes (jsTrim (jsToLower sql)) kw = true) :
    validateQuery sql = false ∧
    ∀ (Row : Type) (limit : Option Int) (cols : List String)
      (runQuery : String → List (List Row) × Option String),
      ∃ m, executeStreamingToolGen ⟨sql, limit⟩ cols runQuery = [Event.query_error m] := by
  have hv : validateQuery sql = false := by
    unfold validateQuery
    rcases h with h | ⟨kw, hkw, hinc⟩
    · simp [h]
    · by_cases hstart : jsStartsWith (jsTrim (jsToLower sql)) "select" = true
      · have hany : dangerousKeywords.any
            (fun kw => jsIncludes (jsTrim (jsToLower sql)) kw) = true :=
          List.any_eq_true.2 ⟨kw, hkw, hinc⟩
        simp [hstart, hany]
      · simp [eq_false_of_ne_true hstart]
  refine ⟨hv, ?_⟩
  intro Row limit cols runQuery
  rw [gen_rejected ⟨sql, limit⟩ cols runQuery (Or.inr hv)]
  exact ⟨_, rfl⟩

theorem validateQuery_rejects_witness :
    (jsStartsWith (jsTrim (jsToLower "DROP TABLE employees")) "select" = false ∨
     ∃ kw ∈ dangerousKeywords,
       jsIncludes (jsTrim (jsToLower "DROP TABLE employees")) kw = true) ∧
    validateQuery "DROP TABLE employees" = false ∧
    (∃ m, @executeStreamingToolGen Nat ⟨"DROP TABLE employees", none⟩ ["c"]
        (fun _ => ([[1]], none)) = [Event.query_error m]) :=
  ⟨by decide,
   (validateQuery_rejects "DROP TABLE employees" (by decide)).1,
   (validateQuery_rejects "DROP TABLE employees" (by decide)).2 Nat none ["c"]
     (fun _ => ([[1]], none))⟩

/-! ### C6: date normalization depends on the process environment -/

/-- C6 (code bug): `convertBigIntsToNumbers` builds `new Date(1970, 0, 1)` in
LOCAL time, advances it with `setDate`, and prints it with the UTC printer
`toISOString`.  For the stored date with `days = 0` (1970-01-01) the printed
string is "1970-01-01" in a UTC environment but "1969-12-31" in an
environment at UTC+10:00 (offset +600 minutes), so the produced `YYYY-MM-DD`
string depends on the process environment, contradicting the canonical
environment-independent normalization the specification requires. -/
theorem date_conversion_environment_dependent :
    convertDuckDbDate 0 0 = "1970-01-01" ∧
    convertDuckDbDate 600 0 = "1969-12-31" ∧
    ¬ convertDuckDbDate 600 0 = convertDuckDbDate 0 0 :=
  ⟨by decide, by decide, by decide⟩

/-! ### C8: LIMIT clause application -/

/-- C8: the executed SQL text is the trimmed input text; when the caller
supplies a positive limit, " LIMIT n" is appended exactly when the lowercased
trimmed text does not already contain "limit" (textual check); with no
supplied limit, or with an already present limit clause, the trimmed text is
executed unchanged; and on accepted inputs `executeStreamingTool` reports
exactly this text in its `query_start` event (the same text it hands to the
row source). -/
theorem applyLimit_spec (sqlRaw : String) (limit : Option Int) :
    (∀ l : Int, limit = some l → 0 < l →
        applyLimit sqlRaw limit =
          (if jsIncludes (jsToLower (jsTrim sqlRaw)) "limit" = true then jsTrim sqlRaw
           else jsTrim sqlRaw ++ " LIMIT " ++ intToString l)) ∧
    (limit = none → applyLimit sqlRaw limit = jsTrim sqlRaw) ∧
    (∀ l : Int, limit = some l → jsIncludes (jsToLower (jsTrim sqlRaw)) "limit" = true →
        applyLimit sqlRaw limit = jsTrim sqlRaw) ∧
    (∀ (Row : Type) (cols : List String)
        (runQuery : String → List (List Row) × Option String),
        ¬ sqlRaw = "" → validateQuery sqlRaw = true →
        ∃ rest, executeStreamingToolGen ⟨sqlRaw, limit⟩ cols runQuery
            = Event.query_start (applyLimit sqlRaw limit) cols :: rest) := by
  refine ⟨?_, ?_, ?_, ?_⟩
  · intro l hl hpos
    subst hl
    simp only [applyLimit, if_pos hpos]
  · intro hl
    subst hl
    rfl
  · intro l hl hin
    subst hl
    simp only [applyLimit]
    by_cases hpos : (0 : Int) < l
    · simp [hpos, hin]
    · simp [hpos]
  · intro Row cols runQuery h0 h1
    rcases hsrc : runQuery (applyLimit sqlRaw limit) with ⟨chunks, err⟩
    rcases err with _ | msg
    · exact ⟨_, by rw [gen_valid_none ⟨sqlRaw, limit⟩ cols runQuery chunks h0 h1 hsrc]⟩
    · exact ⟨_, by rw [gen_valid_some ⟨sqlRaw, limit⟩ cols runQuery chunks msg h0 h1 hsrc]⟩

theorem applyLimit_spec_witness :
    (0 : Int) < 3 ∧
    applyLimit "SELECT * FROM employees" (some 3) =
      (if jsIncludes (jsToLower (jsTrim "SELECT * FROM employees")) "limit" = true
       then jsTrim "SELECT * FROM employees"
       else jsTrim "SELECT * FROM employees" ++ " LIMIT " ++ intToString 3) :=
  ⟨by decide, (applyLimit_spec "SELECT * FROM employees" (some 3)).1 3 rfl (by decide)⟩

/-! ### C9: explicit session termination -/

/-- C9: the DELETE handler reports whether the session id existed; for a known
id it removes exactly the entries with that key (every other entry is kept, in
order) and answers success; for an unknown or expired id it answers the
not-found failure and leaves the registry unchanged. -/
theorem terminate_spec {α : Type} (sessions : List (String × α)) (id : String) :
    (handleDeleteSession sessions id).2.success = hasSession sessions id ∧
    (hasSession sessions id = false →
        (handleDeleteSession sessions id).1 = sessions ∧
        (handleDeleteSession sessions id).2.message = "Session " ++ id ++ " not found") ∧
    (hasSession sessions id = true →
        (handleDeleteSession sessions id).1 = sessions.filter (fun p => !(p.1 == id)) ∧
        (handleDeleteSession sessions id).2.message
          = "Session " ++ id ++ " terminated successfully") ∧
    (∀ p ∈ (handleDeleteSession sessions id).1, (p.1 == id) = false) ∧
    (∀ p ∈ sessions, (p.1 == id) = false → p ∈ (handleDeleteSession sessions id).1) := by
  by_cases h : hasSession sessions id = true
  · have hunf : handleDeleteSession sessions id =
        (sessions.filter (fun p => !(p.1 == id)),
         ⟨true, "Session " ++ id ++ " terminated successfully"⟩) := by
      simp only [handleDeleteSession, if_pos h, deleteSession]
    rw [hunf]
    refine ⟨h.symm, ?_, fun _ => ⟨rfl, rfl⟩, ?_, ?_⟩
    · intro hfalse
      rw [h] at hfalse
      cases hfalse
    · intro p hp
      have hmem := (List.mem_filter.1 hp).2
      simpa using hmem
    · intro p hp hpid
      exact List.mem_filter.2 ⟨hp, by simp [hpid]⟩
  · have hfalse : hasSession sessions id = false := by simpa using h
    have hunf : handleDeleteSession sessions id =
        (sessions, ⟨false, "Session " ++ id ++ " not found"⟩) := by
      simp only [handleDeleteSession, hfalse, Bool.false_eq_true, if_false]
    rw [hunf]
    refine ⟨hfalse.symm, fun _ => ⟨rfl, rfl⟩, ?_, ?_, fun p hp _ => hp⟩
    · intro htrue
      rw [htrue] at hfalse
      cases hfalse
    · intro p hp
      have hall : ∀ q ∈ sessions, ¬ (q.1 == id) = true := by
        intro q hq hqid
        have hcontra : hasSession sessions id = true := List.any_eq_true.2 ⟨q, hq, hqid⟩
        rw [hcontra] at hfalse
        cases hfalse
      simpa using hall p hp

theorem terminate_spec_witness :
    (handleDeleteSession [("a", (1 : Nat))] "b").2.success
        = hasSession [("a", (1 : Nat))] "b" ∧
    (handleDeleteSession [("a", (1 : Nat))] "b").1 = [("a", (1 : Nat))] :=
  ⟨(terminate_spec [("a", (1 : Nat))] "b").1,
   ((terminate_spec [("a", (1 : Nat))] "b").2.1 (by decide)).1⟩

/-! ### chunksOf facts (used for the execute and streamExecute comparison) -/

theorem chunksOfAux_flatten {Row : Type} (C : Nat) :
    ∀ (fuel : Nat) (l : List Row), l.length ≤ fuel →
      (chunksOfAux C fuel l).flatten = l := by
  intro fuel
  induction fuel with
  | zero =>
    intro l hl
    have hnil : l = [] := List.eq_nil_of_length_eq_zero (by omega)
    subst hnil
    rfl
  | succ fuel ih =>
    intro l hl
    match l with
    | [] => rfl
    | r :: rs =>
      simp only [chunksOfAux, List.flatten_cons, List.cons_append]
      rw [ih (rs.drop (C - 1))
        (by simp only [List.length_drop]; simp only [List.length_cons] at hl; omega)]
      rw [List.take_append_drop]

theorem chunksOf_flatten {Row : Type} (C : Nat) (l : List Row) :
    (chunksOf C l).flatten = l :=
  chunksOfAux_flatten C l.length l (Nat.le_refl _)

/-! ### String-level facts for comparing the buffered and streaming paths -/

theorem isJsWs_lowerChar (c : Char) : isJsWs (lowerChar c) = isJsWs c := by
  unfold lowerChar
  split <;> rfl

theorem trimChars_map_lowerChar (l : List Char) :
    trimChars (l.map lowerChar) = (trimChars l).map lowerChar := by
  unfold trimChars
  have hws : (isJsWs ∘ lowerChar) = isJsWs := by
    funext c
    exact isJsWs_lowerChar c
  rw [List.dropWhile_map, hws, ← List.map_reverse, List.dropWhile_map, hws, ← List.map_reverse]

theorem trimChars_prefix_of_dropWhile (l : List Char) : trimChars l <+: l.dropWhile isJsWs := by
  rw [show trimChars l = ((l.dropWhile isJsWs).reverse.dropWhile isJsWs).reverse from rfl]
  rw [← List.reverse_suffix, List.reverse_reverse]
  exact List.dropWhile_suffix _

theorem trimChars_head_not_ws (l : List Char) :
    ∀ c, (trimChars l).head? = some c → isJsWs c = false := by
  intro c hc
  have hpre := trimChars_prefix_of_dropWhile l
  rcases htl : trimChars l with _ | ⟨x, t⟩
  · rw [htl] at hc
    cases hc
  · rw [htl] at hc hpre
    simp only [List.head?_cons, Option.some_inj] at hc
    subst hc
    rcases hd : l.dropWhile isJsWs with _ | ⟨y, u⟩
    · rw [hd, List.prefix_nil] at hpre
      cases hpre
    · rw [hd] at hpre
      have hxy := (List.cons_prefix_cons.1 hpre).1
      subst hxy
      have hh := List.head?_dropWhile_not isJsWs l
      rw [hd] at hh
      simpa using hh

theorem trimChars_getLast_not_ws (l : List Char) :
    ∀ c, (trimChars l).getLast? = some c → isJsWs c = false := by
  intro c hc
  have h1 : (trimChars l).getLast? = ((l.dropWhile isJsWs).reverse.dropWhile isJsWs).head? := by
    rw [show trimChars l = ((l.dropWhile isJsWs).reverse.dropWhile isJsWs).reverse from rfl]
    rw [List.getLast?_eq_head?_reverse, List.reverse_reverse]
  rw [h1] at hc
  rcases hd : (l.dropWhile isJsWs).reverse.dropWhile isJsWs with _ | ⟨y, u⟩
  · rw [hd] at hc
    cases hc
  · rw [hd] at hc
    simp only [List.head?_cons, Option.some_inj] at hc
    subst hc
    have hh := List.head?_dropWhile_not isJsWs (l.dropWhile isJsWs).reverse
    rw [hd] at hh
    simpa using hh

theorem trimChars_eq_self (l : List Char)
    (hhead : ∀ c, l.head? = some c → isJsWs c = false)
    (hlast : ∀ c, l.getLast? = some c → isJsWs c = false) :
    trimChars l = l := by
  have h1 : l.dropWhile isJsWs = l := by
    rcases l with _ | ⟨x, t⟩
    · rfl
    · rw [List.dropWhile_cons_of_neg]
      simp [hhead x rfl]
  unfold trimChars
  rw [h1]
  have h2 : l.reverse.dropWhile isJsWs = l.reverse := by
    rcases hr : l.reverse with _ | ⟨y, u⟩
    · rfl
    · rw [List.dropWhile_cons_of_neg]
      have hy : l.getLast? = some y := by
        rw [List.getLast?_eq_head?_reverse, hr]
        rfl
      simp [hlast y hy]
  rw [h2, List.reverse_reverse]

theorem trimChars_idem (l : List Char) : trimChars (trimChars l) = trimChars l :=
  trimChars_eq_self _ (trimChars_head_not_ws l) (trimChars_getLast_not_ws l)

theorem jsTrim_idem (s : String) : jsTrim (jsTrim s) = jsTrim s := by
  show (⟨trimChars (trimChars s.data)⟩ : String) = ⟨trimChars s.data⟩
  rw [trimChars_idem]

theorem sanitized_trim (s : String) :
    jsTrim (jsToLower (jsTrim s)) = jsTrim (jsToLower s) := by
  show (⟨trimChars (List.map lowerChar (trimChars s.data))⟩ : String)
      = ⟨trimChars (List.map lowerChar s.data)⟩
  rw [← trimChars_map_lowerChar, trimChars_idem]

theorem validateQuery_jsTrim (s : String) : validateQuery (jsTrim s) = validateQuery s := by
  unfold validateQuery
  rw [sanitized_trim s]

theorem validateQuery_parts {s : String} (h : validateQuery s = true) :
    jsStartsWith (jsTrim (jsToLower s)) "select" = true ∧
    ∀ kw ∈ dangerousKeywords, jsIncludes (jsTrim (jsToLower s)) kw = false := by
  unfold validateQuery at h
  by_cases hstart : jsStartsWith (jsTrim (jsToLower s)) "select" = true
  · refine ⟨hstart, ?_⟩
    intro kw hkw
    by_cases hinc : jsIncludes (jsTrim (jsToLower s)) kw = true
    · have hany : dangerousKeywords.any
          (fun k => jsIncludes (jsTrim (jsToLower s)) k) = true :=
        List.any_eq_true.2 ⟨kw, hkw, hinc⟩
      simp [hstart, hany] at h
    · simpa using hinc
  · simp [eq_false_of_ne_true hstart] at h

theorem validateQuery_of_parts {s : String}
    (h1 : jsStartsWith (jsTrim (jsToLower s)) "select" = true)
    (h2 : ∀ kw ∈ dangerousKeywords, jsIncludes (jsTrim (jsToLower s)) kw = false) :
    validateQuery s = true := by
  unfold validateQuery
  have hany : dangerousKeywords.any (fun k => jsIncludes (jsTrim (jsToLower s)) k) = false := by
    rw [List.any_eq_false]
    intro kw hkw
    simp [h2 kw hkw]
  simp [h1, hany]

theorem jsStartsWith_iff (s p : String) : jsStartsWith s p = true ↔ p.data <+: s.data :=
  decide_eq_true_iff

theorem jsIncludes_iff (s sub : String) : jsIncludes s sub = true ↔ sub.data <:+: s.data :=
  decide_eq_true_iff

theorem digitChar_mem (n : Nat) : digitChar n ∈ ("0123456789").data := by
  unfold digitChar
  split <;> decide

theorem natDigitsAux_mem :
    ∀ (fuel n : Nat), ∀ c ∈ natDigitsAux fuel n, c ∈ ("0123456789").data := by
  intro fuel
  induction fuel with
  | zero =>
    intro n c hc
    simp [natDigitsAux] at hc
  | succ fuel ih =>
    intro n c hc
    unfold natDigitsAux at hc
    by_cases h : n < 10
    · rw [if_pos h] at hc
      simp only [List.mem_singleton] at hc
      subst hc
      exact digitChar_mem n
    · rw [if_neg h] at hc
      rcases List.mem_append.1 hc with hm | hm
      · exact ih (n / 10) c hm
      · simp only [List.mem_singleton] at hm
        subst hm
        exact digitChar_mem (n % 10)

theorem natDigits_mem (n : Nat) : ∀ c ∈ natDigits n, c ∈ ("0123456789").data :=
  natDigitsAux_mem (n + 1) n

theorem natDigits_ne_nil (n : Nat) : natDigits n ≠ [] := by
  unfold natDigits natDigitsAux
  by_cases h : n < 10
  · rw [if_pos h]
    simp
  · rw [if_neg h]
    simp

theorem digits_not_ws : ∀ c ∈ ("0123456789").data, isJsWs c = false := by decide

theorem digits_lowerChar : ∀ c ∈ ("0123456789").data, lowerChar c = c := by decide

/-- Decomposition of a substring occurrence across a concatenation: the
occurrence lies in the left part, in the right part, or straddles the
boundary as a nonempty suffix of the left part followed by a nonempty prefix
of the right part. -/
theorem infix_append_split {α : Type} {kw x y : List α} (h : kw <:+: x ++ y) :
    kw <:+: x ∨ kw <:+: y ∨
      ∃ s t, s ≠ [] ∧ t ≠ [] ∧ kw = s ++ t ∧ s <:+ x ∧ t <+: y := by
  obtain ⟨u, v, huv⟩ := h
  have hx : (x ++ y).take x.length = x := List.take_left x y
  have hy : (x ++ y).drop x.length = y := List.drop_left x y
  rw [← huv] at hx hy
  rw [List.append_assoc, List.take_append_eq_append_take] at hx
  rw [List.append_assoc, List.drop_append_eq_append_drop] at hy
  by_cases h1 : u.length + kw.length ≤ x.length
  · left
    rw [List.take_of_length_le (by omega), List.take_append_eq_append_take,
      List.take_of_length_le (by omega)] at hx
    rw [← List.append_assoc] at hx
    exact ⟨u, v.take (x.length - u.length - kw.length), hx⟩
  · by_cases h2 : x.length ≤ u.length
    · right; left
      rw [Nat.sub_eq_zero_of_le h2, List.drop_zero] at hy
      exact ⟨u.drop x.length, v, by rw [← List.append_assoc] at hy; exact hy⟩
    · right; right
      have hk1 : 0 < x.length - u.length := by omega
      have hk2 : x.length - u.length < kw.length := by omega
      refine ⟨kw.take (x.length - u.length), kw.drop (x.length - u.length), ?_, ?_, ?_, ?_, ?_⟩
      · intro hnil
        have := congrArg List.length hnil
        simp only [List.length_take, List.length_nil] at this
        omega
      · intro hnil
        have := congrArg List.length hnil
        simp only [List.length_drop, List.length_nil] at this
        omega
      · rw [List.take_append_drop]
      · rw [List.take_of_length_le (by omega), List.take_append_eq_append_take,
          Nat.sub_eq_zero_of_le (Nat.le_of_lt hk2), List.take_zero, List.append_nil] at hx
        exact ⟨u, hx⟩
      · rw [List.drop_eq_nil_of_le (by omega), List.nil_append,
          List.drop_append_eq_append_drop,
          Nat.sub_eq_zero_of_le (Nat.le_of_lt hk2), List.drop_zero] at hy
        exact ⟨v, hy⟩

theorem string_data_mk (l : List Char) : (⟨l⟩ : String).data = l := rfl

theorem string_eq_empty_iff (s : String) : s = "" ↔ s.data = [] := by
  cases s with
  | mk data =>
    constructor
    · intro h
      have h2 := congrArg String.data h
      simpa using h2
    · intro h
      simp only at h
      subst h
      rfl

theorem keyword_not_in_appended (kw A D : List Char)
    (hkwA : ¬ kw <:+: A)
    (hsp : ' ' ∉ kw)
    (hbad : ∃ c ∈ kw, c ∉ (" limit ").data ∧ c ∉ ("0123456789").data)
    (hD : ∀ c ∈ D, c ∈ ("0123456789").data) :
    ¬ kw <:+: A ++ ((" limit ").data ++ D) := by
  intro h
  rcases infix_append_split h with h | h | ⟨s, t, hs, ht, hkw, hsx, hty⟩
  · exact hkwA h
  · obtain ⟨c, hc, hc1, hc2⟩ := hbad
    have hmem := h.subset hc
    rcases List.mem_append.1 hmem with hm | hm
    · exact hc1 hm
    · exact hc2 (hD c hm)
  · have hty2 : t <+: ' ' :: (("limit ").data ++ D) := hty
    rcases t with _ | ⟨c, t2⟩
    · exact ht rfl
    · have hc := (List.cons_prefix_cons.1 hty2).1
      subst hc
      refine hsp ?_
      rw [hkw]
      exact List.mem_append.2 (Or.inr (List.mem_cons_self _ _))

theorem trimChars_wrapped_eq_self (A mid D : List Char)
    (hA : ∀ c, A.head? = some c → isJsWs c = false)
    (hAne : A ≠ [])
    (hD : ∀ c ∈ D, c ∈ ("0123456789").data)
    (hDne : D ≠ []) :
    trimChars (A ++ mid ++ D) = A ++ mid ++ D := by
  apply trimChars_eq_self
  · intro c hc
    rcases A with _ | ⟨a, A2⟩
    · exact absurd rfl hAne
    · simp only [List.cons_append, List.head?_cons, Option.some_inj] at hc
      subst hc
      exact hA _ rfl
  · intro c hc
    rw [List.getLast?_append] at hc
    rcases hDl : D.getLast? with _ | d
    · rw [List.getLast?_eq_none_iff] at hDl
      exact absurd hDl hDne
    · rw [hDl, Option.or_some, Option.some_inj] at hc
      subst hc
      exact digits_not_ws d (hD d (List.mem_of_getLast?_eq_some hDl))

theorem validateQuery_trim_ne_nil {s : String} (h : validateQuery s = true) :
    trimChars s.data ≠ [] := by
  obtain ⟨hstart, _⟩ := validateQuery_parts h
  rw [jsStartsWith_iff] at hstart
  intro hnil
  have hlow : trimChars (s.data.map lowerChar) = [] := by
    rw [trimChars_map_lowerChar, hnil]
    rfl
  have hstart2 : ("select").data <+: trimChars (s.data.map lowerChar) := hstart
  rw [hlow, List.prefix_nil] at hstart2
  cases hstart2

theorem map_lowerChar_natDigits (m : Nat) :
    (natDigits m).map lowerChar = natDigits m := by
  have h := List.map_congr_left (f := lowerChar) (g := id)
    (fun c hc => digits_lowerChar c (natDigits_mem m c hc))
  rw [h, List.map_id]

theorem sanitized_append_limit (s : String) (m : Nat) (hs : validateQuery s = true) :
    jsTrim (jsToLower (jsTrim s ++ " LIMIT " ++ (⟨natDigits m⟩ : String))) =
      ⟨trimChars (s.data.map lowerChar) ++ (" limit ").data ++ natDigits m⟩ := by
  show (⟨trimChars ((trimChars s.data ++ (" LIMIT ").data ++ natDigits m).map lowerChar)⟩ :
      String) = _
  rw [List.map_append, List.map_append]
  rw [show ((" LIMIT ").data).map lowerChar = (" limit ").data from rfl]
  rw [map_lowerChar_natDigits]
  rw [show (trimChars s.data).map lowerChar = trimChars (s.data.map lowerChar) from
    (trimChars_map_lowerChar s.data).symm]
  rw [trimChars_wrapped_eq_self _ _ _ (trimChars_head_not_ws _) ?hAne (natDigits_mem m)
    (natDigits_ne_nil m)]
  case hAne =>
    obtain ⟨hstart, _⟩ := validateQuery_parts hs
    have hA : ("select").data <+: trimChars (s.data.map lowerChar) :=
      (jsStartsWith_iff _ _).1 hstart
    intro hnil
    rw [hnil, List.prefix_nil] at hA
    cases hA

theorem validateQuery_append_limit (s : String) (m : Nat) (h : validateQuery s = true) :
    validateQuery (jsTrim s ++ " LIMIT " ++ (⟨natDigits m⟩ : String)) = true := by
  obtain ⟨hstart, hkw⟩ := validateQuery_parts h
  have hall : ∀ kw ∈ dangerousKeywords, (' ' ∉ kw.data) ∧
      ∃ c ∈ kw.data, c ∉ (" limit ").data ∧ c ∉ ("0123456789").data := by decide
  apply validateQuery_of_parts
  · rw [jsStartsWith_iff, sanitized_append_limit s m h, string_data_mk]
    have hA : ("select").data <+: trimChars (s.data.map lowerChar) :=
      (jsStartsWith_iff _ _).1 hstart
    rw [List.append_assoc]
    exact hA.trans (List.prefix_append _ _)
  · intro kw hkwmem
    rw [← Bool.not_eq_true, jsIncludes_iff, sanitized_append_limit s m h, string_data_mk,
      List.append_assoc]
    apply keyword_not_in_appended
    · have hfalse := hkw kw hkwmem
      intro hc
      have : jsIncludes (jsTrim (jsToLower s)) kw = true := (jsIncludes_iff _ _).2 hc
      rw [hfalse] at this
      cases this
    · exact (hall kw hkwmem).1
    · exact (hall kw hkwmem).2
    · exact natDigits_mem m

theorem jsTrim_append_limit (s : String) (m : Nat) (hne : trimChars s.data ≠ []) :
    jsTrim (jsTrim s ++ " LIMIT " ++ (⟨natDigits m⟩ : String)) =
      jsTrim s ++ " LIMIT " ++ (⟨natDigits m⟩ : String) := by
  show (⟨trimChars (trimChars s.data ++ (" LIMIT ").data ++ natDigits m)⟩ : String) =
      ⟨trimChars s.data ++ (" LIMIT ").data ++ natDigits m⟩
  rw [trimChars_wrapped_eq_self _ _ _ (trimChars_head_not_ws _) hne (natDigits_mem m)
    (natDigits_ne_nil m)]

theorem applyLimit_none (s : String) : applyLimit s none = jsTrim s := rfl

theorem applyLimit_nonpos (s : String) {l : Int} (h : ¬ 0 < l) :
    applyLimit s (some l) = jsTrim s := by
  simp only [applyLimit]
  rw [if_neg h]

theorem applyLimit_has_limit (s : String) {l : Int} (hpos : 0 < l)
    (hin : jsIncludes (jsToLower (jsTrim s)) "limit" = true) :
    applyLimit s (some l) = jsTrim s := by
  simp only [applyLimit]
  rw [if_pos hpos, if_pos hin]

theorem applyLimit_appends (s : String) {l : Int} (hpos : 0 < l)
    (hin : ¬ jsIncludes (jsToLower (jsTrim s)) "limit" = true) :
    applyLimit s (some l) = jsTrim s ++ " LIMIT " ++ (⟨natDigits l.toNat⟩ : String) := by
  simp only [applyLimit]
  rw [if_pos hpos, if_neg hin]
  have hits : intToString l = (⟨natDigits l.toNat⟩ : String) := by
    simp only [intToString]
    rw [if_neg (by omega)]
  rw [hits]

theorem appended_includes_limit (s : String) (m : Nat) :
    jsIncludes (jsToLower (jsTrim s ++ " LIMIT " ++ (⟨natDigits m⟩ : String))) "limit"
      = true := by
  rw [jsIncludes_iff]
  show ("limit").data <:+:
    (trimChars s.data ++ (" LIMIT ").data ++ natDigits m).map lowerChar
  rw [List.map_append, List.map_append,
    show ((" LIMIT ").data).map lowerChar = (" limit ").data from rfl,
    map_lowerChar_natDigits]
  have h1 : ("limit").data <:+: (" limit ").data := by decide
  exact h1.trans (List.infix_append _ _ _)

theorem validateQuery_applyLimit (s : String) (limit : Option Int)
    (h : validateQuery s = true) : validateQuery (applyLimit s limit) = true := by
  rcases limit with _ | l
  · rw [applyLimit_none, validateQuery_jsTrim]
    exact h
  · by_cases hpos : (0 : Int) < l
    · by_cases hin : jsIncludes (jsToLower (jsTrim s)) "limit" = true
      · rw [applyLimit_has_limit s hpos hin, validateQuery_jsTrim]
        exact h
      · rw [applyLimit_appends s hpos hin]
        exact validateQuery_append_limit s l.toNat h
    · rw [applyLimit_nonpos s hpos, validateQuery_jsTrim]
      exact h

theorem applyLimit_ne_empty (s : String) (limit : Option Int)
    (h : validateQuery s = true) : ¬ applyLimit s limit = "" := by
  have hne := validateQuery_trim_ne_nil h
  have htne : ¬ jsTrim s = "" := by
    rw [string_eq_empty_iff]
    exact hne
  rcases limit with _ | l
  · rw [applyLimit_none]
    exact htne
  · by_cases hpos : (0 : Int) < l
    · by_cases hin : jsIncludes (jsToLower (jsTrim s)) "limit" = true
      · rw [applyLimit_has_limit s hpos hin]
        exact htne
      · rw [applyLimit_appends s hpos hin, string_eq_empty_iff]
        intro hc
        rw [show (jsTrim s ++ " LIMIT " ++ (⟨natDigits l.toNat⟩ : String)).data
          = trimChars s.data ++ (" LIMIT ").data ++ natDigits l.toNat from rfl] at hc
        simp at hc
    · rw [applyLimit_nonpos s hpos]
      exact htne

theorem applyLimit_stable (s : String) (limit : Option Int) (h : validateQuery s = true) :
    applyLimit (applyLimit s limit) (passedLimit limit) = applyLimit s limit := by
  have hne := validateQuery_trim_ne_nil h
  rcases limit with _ | l
  · rw [show passedLimit none = none from rfl, applyLimit_none, applyLimit_none]
    exact jsTrim_idem s
  · by_cases hl0 : l = 0
    · subst hl0
      rw [show passedLimit (some 0) = none from by simp [passedLimit],
        applyLimit_nonpos s (by omega), applyLimit_none]
      exact jsTrim_idem s
    · rw [show passedLimit (some l) = some l from by simp [passedLimit, hl0]]
      by_cases hpos : (0 : Int) < l
      · by_cases hin : jsIncludes (jsToLower (jsTrim s)) "limit" = true
        · rw [applyLimit_has_limit s hpos hin]
          rw [applyLimit_has_limit (jsTrim s) hpos (by rw [jsTrim_idem]; exact hin)]
          exact jsTrim_idem s
        · rw [applyLimit_appends s hpos hin]
          rw [applyLimit_has_limit (jsTrim s ++ " LIMIT " ++ (⟨natDigits l.toNat⟩ : String))
            hpos ?hinc]
          case hinc =>
            rw [jsTrim_append_limit s l.toNat hne]
            exact appended_includes_limit s l.toNat
          exact jsTrim_append_limit s l.toNat hne
      · rw [applyLimit_nonpos s hpos, applyLimit_nonpos (jsTrim s) hpos]
        exact jsTrim_idem s

/-! ### C10: the buffered and streaming paths deliver the same rows -/

/-- C10: on every accepted input with a successful store read, the legacy
buffered path `execute` and the streaming path `streamExecute` deliver
exactly the same rows in the same order: concatenating the `chunk` arrays
across all `data_chunk` events inside the event list `execute` returns gives
exactly the row sequence `streamExecute` serializes one per content entry,
and the `_meta.totalRows` of `streamExecute` equals that row count. -/
theorem execute_streamExecute_agree {Row : Type} (input : DbQueryToolInput)
    (db : DbModel Row) (rows : List Row)
    (h0 : ¬ input.sql = "") (h1 : validateQuery input.sql = true)
    (h2 : db.result (applyLimit input.sql input.limit) = Except.ok rows) :
    ∃ evs, execute input db = Except.ok evs ∧
      streamExecute input db = Except.ok ⟨rows, rows.length⟩ ∧
      (dataChunkRowLists evs).flatten = rows := by
  have hex : execute input db = Except.ok (executeStreamingTool
      ⟨applyLimit input.sql input.limit, passedLimit input.limit⟩ db) := by
    simp only [execute, if_neg h0, h1, Bool.true_eq_false, if_false]
  have hse : streamExecute input db = Except.ok ⟨rows, rows.length⟩ := by
    simp only [streamExecute, if_neg h0, h1, Bool.true_eq_false, if_false, h2]
    rw [chunksOf_flatten]
  have h0p : ¬ (applyLimit input.sql input.limit) = "" := applyLimit_ne_empty _ _ h1
  have h1p : validateQuery (applyLimit input.sql input.limit) = true :=
    validateQuery_applyLimit _ _ h1
  have hrun : (fun sql => executeStreamingQueryModel db sql dbChunkSize)
      (applyLimit (applyLimit input.sql input.limit) (passedLimit input.limit))
      = (chunksOf dbChunkSize rows, (none : Option String)) := by
    show executeStreamingQueryModel db
      (applyLimit (applyLimit input.sql input.limit) (passedLimit input.limit)) dbChunkSize = _
    rw [applyLimit_stable input.sql input.limit h1]
    simp only [executeStreamingQueryModel, h2]
  have htrace := gen_valid_none
    ⟨applyLimit input.sql input.limit, passedLimit input.limit⟩ db.columns
    (fun sql => executeStreamingQueryModel db sql dbChunkSize)
    (chunksOf dbChunkSize rows) h0p h1p hrun
  refine ⟨_, hex, hse, ?_⟩
  show (dataChunkRowLists (executeStreamingTool
      ⟨applyLimit input.sql input.limit, passedLimit input.limit⟩ db)).flatten = rows
  rw [show executeStreamingTool
        ⟨applyLimit input.sql input.limit, passedLimit input.limit⟩ db
      = executeStreamingToolGen ⟨applyLimit input.sql input.limit, passedLimit input.limit⟩
          db.columns (fun sql => executeStreamingQueryModel db sql dbChunkSize) from rfl]
  rw [htrace]
  rw [dataChunkRowLists_wrap
    (applyLimit (DbQueryToolInput.mk (applyLimit input.sql input.limit)
      (passedLimit input.limit)).sql
      (DbQueryToolInput.mk (applyLimit input.sql input.limit) (passedLimit input.limit)).limit)
    db.columns
    (allChunks streamChunkSize (chunksOf dbChunkSize rows).flatten)
    (Event.query_complete ((chunksOf dbChunkSize rows).flatten).length
      (allChunks streamChunkSize (chunksOf dbChunkSize rows).flatten).length) rfl 0 0]
  rw [allChunks_flatten, chunksOf_flatten]

theorem execute_streamExecute_agree_witness :
    ∃ evs, execute ⟨"SELECT id FROM employees", some 2⟩
        (⟨["id"], fun _ => Except.ok [7, 8, 9]⟩ : DbModel Nat) = Except.ok evs ∧
      streamExecute ⟨"SELECT id FROM employees", some 2⟩
        (⟨["id"], fun _ => Except.ok [7, 8, 9]⟩ : DbModel Nat)
        = Except.ok ⟨[7, 8, 9], ([7, 8, 9] : List Nat).length⟩ ∧
      (dataChunkRowLists evs).flatten = [7, 8, 9] :=
  execute_streamExecute_agree ⟨"SELECT id FROM employees", some 2⟩
    (⟨["id"], fun _ => Except.ok [7, 8, 9]⟩ : DbModel Nat) [7, 8, 9]
    (by decide) (by decide) rfl

end McpDuckdb
